import Mathlib

/-!
Shallow embedding of the claw-usage-chart Go program (parser.go and db.go)
and proofs about its specification claims.

Modelling conventions:
* Go JSON numbers (float64) are modelled as exact decimal fractions
  `Dec` (mantissa / 10 ^ exp10).  All arithmetic the program performs on
  numbers (truncation to int, comparison with 10^10, division by 1000,
  sums of costs) is exact at these magnitudes, so the model is faithful
  for the behaviours under the claims.
* Go `time.Local` is modelled by an arbitrary offset function
  `tz : Int → Int` giving the UTC offset (in seconds) of an instant.
* Strings are handled as `List Char`; all inputs relevant to the claims
  are ASCII, where Lean chars coincide with bytes.
-/

namespace Claw

/-- Exact decimal fraction `m / 10 ^ e`, the model of a Go JSON number.
Kept unnormalised so that all operations are kernel-computable. -/
structure Dec where
  m : Int
  e : Nat
deriving DecidableEq, Repr

/-- Rational value of a decimal fraction. -/
def Dec.toRat (d : Dec) : ℚ := (d.m : ℚ) / ((10 : ℚ) ^ d.e)

/-- Integer `n` as a decimal fraction. -/
def Dec.ofInt (n : Int) : Dec := ⟨n, 0⟩

/-- Truncation toward zero, the semantics of Go's `int(f)` conversion. -/
def Dec.trunc (d : Dec) : Int := d.m.tdiv ((10 : Int) ^ d.e)

/-- Comparison `d > n` with an integer, exact. -/
def Dec.gtInt (d : Dec) (n : Int) : Bool := decide (n * (10 : Int) ^ d.e < d.m)

/-- Division by 1000, exact (Go's `v / 1000.0`; exact in float64 at the
magnitudes the program compares against). -/
def Dec.div1000 (d : Dec) : Dec := ⟨d.m, d.e + 3⟩

/-- Exact sum of two decimal fractions. -/
def Dec.add (a b : Dec) : Dec :=
  let e := max a.e b.e
  ⟨a.m * (10 : Int) ^ (e - a.e) + b.m * (10 : Int) ^ (e - b.e), e⟩

/-- Zero. -/
def Dec.zero : Dec := ⟨0, 0⟩

/-- Go's `roundFloat(f, 6)`: `float64(int(f*p+0.5)) / p` with `p = 10^6`,
modelled exactly: trunc(f * 10^6 + 1/2) / 10^6. -/
def Dec.round6 (d : Dec) : Dec :=
  ⟨(2 * d.m * (10 : Int) ^ 6 + (10 : Int) ^ d.e).tdiv (2 * (10 : Int) ^ d.e), 6⟩

/-- Characters Go's `strings.TrimSpace` removes (ASCII subset of
`unicode.IsSpace`; the non-ASCII spaces are not exercised by any claim). -/
def isGoSpace (c : Char) : Bool :=
  c = ' ' || c = '\t' || c = '\n' || c = '\x0b' || c = '\x0c' || c = '\r'

/-- Drop leading spaces. -/
def dropLeadingSpace : List Char → List Char
  | [] => []
  | c :: cs => if isGoSpace c then dropLeadingSpace cs else c :: cs

/-- Go's `strings.TrimSpace` on a character list. -/
def trimSpace (l : List Char) : List Char :=
  ((dropLeadingSpace l.reverse).reverse |> dropLeadingSpace)

/-- JSON value, the result of Go's `encoding/json` decoding.  Numbers are
exact decimals (see `Dec`); object fields keep their textual order, with
duplicate keys preserved (Go's decoder lets the last occurrence win, which
`jfield` below implements). -/
inductive JVal where
  | null : JVal
  | jbool : Bool → JVal
  | num : Dec → JVal
  | jstr : List Char → JVal
  | arr : List JVal → JVal
  | obj : List (List Char × JVal) → JVal

/-- Is a JSON value the null value?  (Structural test; `deriving
DecidableEq` is unavailable for this nested inductive.) -/
def JVal.isNull : JVal → Bool
  | .null => true
  | _ => false

/-- Membership of a key among object fields. -/
def jhasIn (fields : List (List Char × JVal)) (name : List Char) : Bool :=
  fields.any (fun kv => kv.1 = name)

/-- Last-occurrence field lookup in a JSON object, mirroring Go's
`encoding/json` duplicate-key behaviour (the last member assigned wins,
even a `null` one); absent fields read as `null`, exactly as a Go
`interface{}` struct field is left `nil`. -/
def jfieldIn (fields : List (List Char × JVal)) (name : List Char) : JVal :=
  match fields with
  | [] => .null
  | (k, v) :: rest =>
      if jhasIn rest name then jfieldIn rest name
      else if k = name then v else .null

/-- Field lookup on a JSON value (null on non-objects). -/
def jfield (v : JVal) (name : List Char) : JVal :=
  match v with
  | .obj fields => jfieldIn fields name
  | _ => .null

/-- Presence of a field on a JSON value (even as JSON null); Go's
`RawMessage` presence / `map` membership test. -/
def jhas (v : JVal) (name : List Char) : Bool :=
  match v with
  | .obj fields => jhasIn fields name
  | _ => false

/-! JSON text parser (RFC 8259 grammar, the subset `encoding/json`
decodes into `interface{}` / raw messages).  Fuel-based recursion; the
fuel is always sufficient because every recursive call consumes input. -/

/-- Decimal digit test. -/
def isDig (c : Char) : Bool := '0' ≤ c && c ≤ '9'

/-- Value of a decimal digit character. -/
def digVal (c : Char) : Nat := c.toNat - 48

/-- Parse a maximal run of digits, returning value, digit count and rest. -/
def takeDigits : List Char → Nat → Nat → (Nat × Nat × List Char)
  | [], acc, n => (acc, n, [])
  | c :: cs, acc, n =>
      if isDig c then takeDigits cs (acc * 10 + digVal c) (n + 1)
      else (acc, n, c :: cs)

/-- Parse a JSON number (after the grammar `-?int frac? exp?`). -/
def parseJNum (l : List Char) : Option (Dec × List Char) := do
  let (neg, l) := match l with
    | '-' :: rest => (true, rest)
    | _ => (false, l)
  -- integer part: 0 | [1-9][0-9]*  (leading zeros are invalid JSON)
  let (ival, icnt, l) ← match l with
    | '0' :: rest =>
        if rest.headD ' ' |> isDig then none else some (0, 1, rest)
    | _ =>
        let (v, n, rest) := takeDigits l 0 0
        if n = 0 then none else some (v, n, rest)
  let _ := icnt
  let (mant, fexp, l) ← match l with
    | '.' :: rest =>
        let (fv, fn, rest) := takeDigits rest 0 0
        if fn = 0 then none else some (ival * 10 ^ fn + fv, fn, rest)
    | _ => some (ival, 0, l)
  let (d, l) ← match l with
    | e :: rest =>
        if e = 'e' || e = 'E' then
          let (eneg, rest) := match rest with
            | '-' :: r => (true, r)
            | '+' :: r => (false, r)
            | _ => (false, rest)
          let (ev, en, rest) := takeDigits rest 0 0
          if en = 0 then none
          else if eneg then some (Dec.mk (mant : Int) (fexp + ev), rest)
          else some (Dec.mk ((mant : Int) * (10 : Int) ^ ev) fexp, rest)
        else some (Dec.mk (mant : Int) fexp, e :: rest)
    | [] => some (Dec.mk (mant : Int) fexp, [])
  some (if neg then (⟨-d.m, d.e⟩, l) else (d, l))

/-- Parse the body of a JSON string after the opening quote, with the
standard escapes (`\u` surrogate pairs are not combined; no claim
exercises them). -/
def parseJStrBody : Nat → List Char → Option (List Char × List Char)
  | 0, _ => none
  | _, [] => none
  | fuel + 1, c :: cs =>
      if c = '"' then some ([], cs)
      else if c = '\\' then
        match cs with
        | [] => none
        | e :: cs2 =>
            let esc : Option (Char × List Char) :=
              if e = '"' then some ('"', cs2)
              else if e = '\\' then some ('\\', cs2)
              else if e = '/' then some ('/', cs2)
              else if e = 'b' then some ('\x08', cs2)
              else if e = 'f' then some ('\x0c', cs2)
              else if e = 'n' then some ('\n', cs2)
              else if e = 'r' then some ('\r', cs2)
              else if e = 't' then some ('\t', cs2)
              else if e = 'u' then
                match cs2 with
                | h1 :: h2 :: h3 :: h4 :: cs3 =>
                    let hv (c : Char) : Option Nat :=
                      if isDig c then some (digVal c)
                      else if 'a' ≤ c && c ≤ 'f' then some (c.toNat - 87)
                      else if 'A' ≤ c && c ≤ 'F' then some (c.toNat - 55)
                      else none
                    match hv h1, hv h2, hv h3, hv h4 with
                    | some a, some b, some c_, some d =>
                        some (Char.ofNat (((a * 16 + b) * 16 + c_) * 16 + d), cs3)
                    | _, _, _, _ => none
                | _ => none
              else none
            match esc with
            | none => none
            | some (ch, rest) => do
                let (s, r) ← parseJStrBody fuel rest
                some (ch :: s, r)
      else do
        let (s, r) ← parseJStrBody fuel cs
        some (c :: s, r)

/-- Skip JSON whitespace. -/
def skipWs : List Char → List Char
  | [] => []
  | c :: cs =>
      if c = ' ' || c = '\t' || c = '\n' || c = '\r' then skipWs cs else c :: cs

mutual

/-- Parse one JSON value. -/
def parseJVal : Nat → List Char → Option (JVal × List Char)
  | 0, _ => none
  | fuel + 1, l =>
      match skipWs l with
      | [] => none
      | c :: cs =>
          if c = 'n' then
            match cs with
            | 'u' :: 'l' :: 'l' :: rest => some (.null, rest)
            | _ => none
          else if c = 't' then
            match cs with
            | 'r' :: 'u' :: 'e' :: rest => some (.jbool true, rest)
            | _ => none
          else if c = 'f' then
            match cs with
            | 'a' :: 'l' :: 's' :: 'e' :: rest => some (.jbool false, rest)
            | _ => none
          else if c = '"' then do
            let (s, rest) ← parseJStrBody (cs.length + 1) cs
            some (.jstr s, rest)
          else if c = '[' then
            match skipWs cs with
            | ']' :: rest => some (.arr [], rest)
            | l2 => do
                let (x, rest) ← parseJVal fuel l2
                let (xs, rest) ← parseJArrTail fuel rest
                some (.arr (x :: xs), rest)
          else if c = '{' then
            match skipWs cs with
            | '}' :: rest => some (.obj [], rest)
            | l2 => do
                let (kv, rest) ← parseJMember fuel l2
                let (kvs, rest) ← parseJObjTail fuel rest
                some (.obj (kv :: kvs), rest)
          else do
            let (d, rest) ← parseJNum (c :: cs)
            some (.num d, rest)

/-- Parse the continuation of an array after one element. -/
def parseJArrTail : Nat → List Char → Option (List JVal × List Char)
  | 0, _ => none
  | fuel + 1, l =>
      match skipWs l with
      | ']' :: rest => some ([], rest)
      | ',' :: rest => do
          let (x, rest) ← parseJVal fuel rest
          let (xs, rest) ← parseJArrTail fuel rest
          some (x :: xs, rest)
      | _ => none

/-- Parse one `"key": value` member. -/
def parseJMember : Nat → List Char → Option ((List Char × JVal) × List Char)
  | 0, _ => none
  | fuel + 1, l =>
      match skipWs l with
      | '"' :: cs => do
          let (k, rest) ← parseJStrBody (cs.length + 1) cs
          match skipWs rest with
          | ':' :: rest2 => do
              let (v, rest3) ← parseJVal fuel rest2
              some ((k, v), rest3)
          | _ => none
      | _ => none

/-- Parse the continuation of an object after one member. -/
def parseJObjTail : Nat → List Char → Option (List (List Char × JVal) × List Char)
  | 0, _ => none
  | fuel + 1, l =>
      match skipWs l with
      | '}' :: rest => some ([], rest)
      | ',' :: rest => do
          let (kv, rest) ← parseJMember fuel rest
          let (kvs, rest) ← parseJObjTail fuel rest
          some (kv :: kvs, rest)
      | _ => none

end

/-- Full JSON document parse, Go's `json.Unmarshal` success condition:
one value followed only by whitespace. -/
def jparse (l : List Char) : Option JVal := do
  let (v, rest) ← parseJVal (l.length + 1) l
  if skipWs rest = [] then some v else none

/-! Field names used by parser.go's `rawRecord` / `rawMessage` / `rawUsage`
struct tags.  Go's case-insensitive fallback match is not modelled; every
claim uses the canonical (tagged) field names. -/

/-- JSON key. -/
def keyTotalTokens : List Char := "totalTokens".data

/-- JSON key. -/
def keyTotalTokens2 : List Char := "total_tokens".data

/-- JSON key. -/
def keyTotal : List Char := "total".data

/-- JSON key. -/
def keyTokens : List Char := "tokens".data

/-- JSON key. -/
def keyInput : List Char := "input".data

/-- JSON key. -/
def keyOutput : List Char := "output".data

/-- JSON key. -/
def keyCacheRead : List Char := "cacheRead".data

/-- JSON key. -/
def keyCacheWrite : List Char := "cacheWrite".data

/-- JSON key. -/
def keyInputTokens : List Char := "input_tokens".data

/-- JSON key. -/
def keyOutputTokens : List Char := "output_tokens".data

/-- JSON key. -/
def keyCacheReadInputTokens : List Char := "cache_read_input_tokens".data

/-- JSON key. -/
def keyCacheCreationInputTokens : List Char := "cache_creation_input_tokens".data

/-- JSON key. -/
def keyReasoningTokens : List Char := "reasoning_tokens".data

/-- JSON key. -/
def keyCost : List Char := "cost".data

/-- JSON key. -/
def keyModel : List Char := "model".data

/-- JSON key. -/
def keyModelId : List Char := "modelId".data

/-- JSON key. -/
def keyModelId2 : List Char := "model_id".data

/-- JSON key. -/
def keyUsage : List Char := "usage".data

/-- JSON key. -/
def keyMessage : List Char := "message".data

/-- JSON key. -/
def keyTimestamp : List Char := "timestamp".data

/-- JSON key. -/
def keyCostUsd : List Char := "costUsd".data

/-- Sentinel date key. -/
def unknownKey : List Char := "unknown".data

/-- Model of parser.go's `rawUsage` after `json.Unmarshal`: every field has
Go type `interface{}`, so it holds any JSON value, with `null` standing for
both JSON null and an absent field (Go leaves the `interface{}` nil). -/
structure RawUsage where
  totalTokens : JVal
  totalTokens2 : JVal
  total : JVal
  tokens : JVal
  input : JVal
  output : JVal
  cacheRead : JVal
  cacheWrite : JVal
  inputTokens : JVal
  outputTokens : JVal
  cacheReadInputTokens : JVal
  cacheCreationInputTokens : JVal
  reasoningTokens : JVal
  cost : JVal

/-- Model of parser.go's `rawMessage` after `json.Unmarshal`.  `usage` is a
`json.RawMessage`: `some` iff the field was present (even as JSON null). -/
structure RawMessage where
  usage : Option JVal
  model : List Char
  modelId : List Char
  modelId2 : List Char

/-- Model of parser.go's `rawRecord` after `json.Unmarshal`.  The unused
`Type` field is omitted (an `interface{}` field whose decoding never
fails).  `timestamp` is `interface{}` (null ≙ absent or JSON null);
`message`/`usage` are `RawMessage` presence options; `costUsd` is
`*float64`; the model aliases are `string` fields. -/
structure RawRecord where
  timestamp : JVal
  message : Option JVal
  usage : Option JVal
  costUsd : Option Dec
  model : List Char
  modelId : List Char
  modelId2 : List Char

/-- Go `json.Unmarshal` of a JSON value into a `string` struct field:
absent or null leaves the zero value, a string succeeds, any other
value is a type error failing the whole unmarshal. -/
def decodeStrField (v : JVal) : Option (List Char) :=
  match v with
  | .null => some []
  | .jstr s => some s
  | _ => none

/-- Go `json.Unmarshal` of `usage` (or `message`) JSON into `rawUsage`:
succeeds exactly on an object or null (a type error otherwise); object
fields are read by tag name. -/
def decodeRawUsage (v : JVal) : Option RawUsage :=
  match v with
  | .null => some ⟨.null, .null, .null, .null, .null, .null, .null,
      .null, .null, .null, .null, .null, .null, .null⟩
  | .obj f => some
      ⟨jfieldIn f keyTotalTokens, jfieldIn f keyTotalTokens2,
       jfieldIn f keyTotal, jfieldIn f keyTokens,
       jfieldIn f keyInput, jfieldIn f keyOutput,
       jfieldIn f keyCacheRead, jfieldIn f keyCacheWrite,
       jfieldIn f keyInputTokens, jfieldIn f keyOutputTokens,
       jfieldIn f keyCacheReadInputTokens, jfieldIn f keyCacheCreationInputTokens,
       jfieldIn f keyReasoningTokens, jfieldIn f keyCost⟩
  | _ => none

/-- Go `json.Unmarshal` of the `message` JSON into `rawMessage`. -/
def decodeRawMessage (v : JVal) : Option RawMessage :=
  match v with
  | .null => some ⟨none, [], [], []⟩
  | .obj f => do
      let model ← decodeStrField (jfieldIn f keyModel)
      let modelId ← decodeStrField (jfieldIn f keyModelId)
      let modelId2 ← decodeStrField (jfieldIn f keyModelId2)
      some ⟨if jhasIn f keyUsage then some (jfieldIn f keyUsage) else none,
        model, modelId, modelId2⟩
  | _ => none

/-- Go `json.Unmarshal` of a whole line into `rawRecord`.  Fails (drops
the line) on a non-object top level other than null, on a non-string
model alias, and on a non-numeric non-null `costUsd`. -/
def decodeRawRecord (v : JVal) : Option RawRecord :=
  match v with
  | .null => some ⟨.null, none, none, none, [], [], []⟩
  | .obj f => do
      let costUsd ← match jfieldIn f keyCostUsd with
        | .null => some none
        | .num d => some (some d)
        | _ => none
      let model ← decodeStrField (jfieldIn f keyModel)
      let modelId ← decodeStrField (jfieldIn f keyModelId)
      let modelId2 ← decodeStrField (jfieldIn f keyModelId2)
      some ⟨jfieldIn f keyTimestamp,
        if jhasIn f keyMessage then some (jfieldIn f keyMessage) else none,
        if jhasIn f keyUsage then some (jfieldIn f keyUsage) else none,
        costUsd, model, modelId, modelId2⟩
  | _ => none

/-- parser.go `extractUsage`: prefer `message.usage`, falling through to
the top-level `usage` when the message or its usage fails to decode. -/
def extractUsage (rec : RawRecord) : Option RawUsage :=
  let fromMessage : Option RawUsage :=
    match rec.message with
    | some mv =>
        match decodeRawMessage mv with
        | some msg =>
            match msg.usage with
            | some uv => decodeRawUsage uv
            | none => none
        | none => none
    | none => none
  match fromMessage with
  | some u => some u
  | none =>
      match rec.usage with
      | some uv => decodeRawUsage uv
      | none => none

/-- Go `strconv.ParseFloat` on a decimal string, modelled exactly: optional
sign, digits with optional fraction, optional exponent; at least one
mantissa digit; the whole string must be consumed.  (Hex floats,
inf/NaN words and digit-group underscores are not modelled; no claim
exercises them, and `toInt` treats an unparsable string as 0.) -/
def parseGoFloat (l : List Char) : Option Dec :=
  let (neg, l) := match l with
    | '-' :: rest => (true, rest)
    | '+' :: rest => (false, rest)
    | _ => (false, l)
  let (iv, icnt, l) := takeDigits l 0 0
  let mant : Option (Nat × Nat × List Char) :=
    match l with
    | '.' :: rest =>
        let (fv, fn, rest) := takeDigits rest 0 0
        if icnt = 0 && fn = 0 then none else some (iv * 10 ^ fn + fv, fn, rest)
    | _ => if icnt = 0 then none else some (iv, 0, l)
  match mant with
  | none => none
  | some (m, fe, l) =>
      let signed : Int := if neg then -(m : Int) else (m : Int)
      match l with
      | [] => some ⟨signed, fe⟩
      | c :: rest =>
          if c = 'e' || c = 'E' then
            let (eneg, rest) := match rest with
              | '-' :: r => (true, r)
              | '+' :: r => (false, r)
              | _ => (false, rest)
            let (ev, en, rest) := takeDigits rest 0 0
            if en = 0 || rest ≠ [] then none
            else if eneg then some ⟨signed, fe + ev⟩
            else some ⟨signed * (10 : Int) ^ ev, fe⟩
          else none

/-- parser.go `toInt`: tolerant coercion of an `interface{}` value to an
int.  Floats truncate toward zero; strings are trimmed and parsed as
floats then truncated (0 on failure); booleans map to 1/0; anything
else (null, arrays, objects) is 0.  The Go `int`/`int64` cases are
unreachable from JSON and coincide with the float case on integers. -/
def toInt (v : JVal) : Int :=
  match v with
  | .null => 0
  | .num d => d.trunc
  | .jstr s =>
      let s := trimSpace s
      if s = [] then 0
      else
        match parseGoFloat s with
        | none => 0
        | some d => d.trunc
  | .jbool b => if b then 1 else 0
  | _ => 0

/-- First value among the explicit-total aliases whose `toInt` is
positive (the loop in `extractTotalTokens`). -/
def firstPosToInt : List JVal → Option Int
  | [] => none
  | v :: rest =>
      let n := toInt v
      if 0 < n then some n else firstPosToInt rest

/-- Sum of the positive `toInt` values of the component fields (the second
loop in `extractTotalTokens`; non-positive coercions contribute nothing). -/
def sumPosToInt (l : List JVal) : Int :=
  l.foldl (fun acc v => let n := toInt v; if 0 < n then acc + n else acc) 0

/-- The explicit-total alias slice of `extractTotalTokens`, in priority
order. -/
def explicitAliases (u : RawUsage) : List JVal :=
  [u.totalTokens, u.totalTokens2, u.total, u.tokens]

/-- The component-field slice of `extractTotalTokens`. -/
def componentFields (u : RawUsage) : List JVal :=
  [u.input, u.output, u.cacheRead, u.cacheWrite,
   u.inputTokens, u.outputTokens,
   u.cacheReadInputTokens, u.cacheCreationInputTokens,
   u.reasoningTokens]

/-- parser.go `extractTotalTokens`: first positive explicit total alias in
priority order, else the sum of the positive component coercions. -/
def extractTotalTokens (u : RawUsage) : Int :=
  match firstPosToInt (explicitAliases u) with
  | some n => n
  | none => sumPosToInt (componentFields u)

/-- First model alias whose trimmed value is non-empty (returns the
trimmed string, as the Go loop does). -/
def firstNonEmptyTrimmed : List (List Char) → Option (List Char)
  | [] => none
  | s :: rest =>
      let t := trimSpace s
      if t ≠ [] then some t else firstNonEmptyTrimmed rest

/-- parser.go `extractModel`: message-level aliases first (skipped wholesale
if the message fails to decode), then the top-level aliases, defaulting
to the literal "unknown". -/
def extractModel (rec : RawRecord) : List Char :=
  let fromMessage : Option (List Char) :=
    match rec.message with
    | some mv =>
        match decodeRawMessage mv with
        | some msg => firstNonEmptyTrimmed [msg.model, msg.modelId, msg.modelId2]
        | none => none
    | none => none
  match fromMessage with
  | some s => s
  | none =>
      match firstNonEmptyTrimmed [rec.model, rec.modelId, rec.modelId2] with
      | some s => s
      | none => unknownKey

/-- parser.go `extractCost`: prefer top-level `costUsd`; else a scalar
`usage.cost`; else the `total` sub-field of a cost object; else 0. -/
def extractCost (rec : RawRecord) (u : RawUsage) : Dec :=
  match rec.costUsd with
  | some c => c
  | none =>
      match u.cost with
      | .num d => d
      | .obj f =>
          match jfieldIn f keyTotal with
          | .num d => d
          | _ => Dec.zero
      | _ => Dec.zero

/-- parser.go `extractTimestamp`: the top-level `timestamp` when non-nil,
else the `timestamp` member of the decoded message map (which only
decodes when the message is an object). -/
def extractTimestamp (rec : RawRecord) : JVal :=
  if rec.timestamp.isNull then
    match rec.message with
    | some (.obj f) => if jhasIn f keyTimestamp then jfieldIn f keyTimestamp else .null
    | _ => .null
  else rec.timestamp

/-- parser.go `isNumeric`: strip one leading minus, then non-empty and all
decimal digits. -/
def isNumeric (s : List Char) : Bool :=
  let t := match s with
    | c :: r => if c = '-' then r else c :: r
    | [] => []
  decide (t ≠ []) && t.all isDig

/-- Go `strings.Replace(s, "Z", "+00:00", 1)`. -/
def replaceFirstZ : List Char → List Char
  | [] => []
  | c :: cs =>
      if c = 'Z' then '+' :: '0' :: '0' :: ':' :: '0' :: '0' :: cs
      else c :: replaceFirstZ cs

/-! Civil calendar arithmetic (the relevant fragment of Go's `time`
package, which parser.go calls; modelled from the standard proleptic
Gregorian calendar that package implements). -/

/-- Gregorian leap year. -/
def isLeap (y : Int) : Bool := y.emod 4 = 0 && (y.emod 100 ≠ 0 || y.emod 400 = 0)

/-- Number of days in a month. -/
def daysInMonth (y : Int) (m : Nat) : Nat :=
  if m = 2 then (if isLeap y then 29 else 28)
  else if m = 4 || m = 6 || m = 9 || m = 11 then 30
  else 31

/-- Days since 1970-01-01 of a civil date (proleptic Gregorian). -/
def daysFromCivil (y : Int) (m d : Nat) : Int :=
  let y2 : Int := if m ≤ 2 then y - 1 else y
  let era : Int := y2.fdiv 400
  let yoe : Int := y2 - era * 400
  let mp : Int := ((m : Int) + 9).emod 12
  let doy : Int := (153 * mp + 2).ediv 5 + ((d : Int) - 1)
  let doe : Int := yoe * 365 + yoe.ediv 4 - yoe.ediv 100 + doy
  era * 146097 + doe - 719468

/-- Civil date (year, month, day) of a day count since 1970-01-01. -/
def civilFromDays (z0 : Int) : Int × Int × Int :=
  let z := z0 + 719468
  let era : Int := z.fdiv 146097
  let doe : Int := z - era * 146097
  let yoe : Int :=
    (doe - doe.ediv 1460 + doe.ediv 36524 - doe.ediv 146096).ediv 365
  let y : Int := yoe + era * 400
  let doy : Int := doe - (365 * yoe + yoe.ediv 4 - yoe.ediv 100)
  let mp : Int := (5 * doy + 2).ediv 153
  let d : Int := doy - (153 * mp + 2).ediv 5 + 1
  let m : Int := if mp < 10 then mp + 3 else mp - 9
  (if m ≤ 2 then y + 1 else y, m, d)

/-- Decimal digit character. -/
def digitChar (n : Nat) : Char := Char.ofNat (48 + n)

/-- Two-digit zero-padded decimal (Go layout "01"/"02"/"15"/"04"/"05"). -/
def pad2 (n : Int) : List Char :=
  [digitChar ((n.toNat / 10) % 10), digitChar (n.toNat % 10)]

/-- Four-digit zero-padded year (Go layout "2006"; years outside 0..9999
do not occur in any claim and are rendered unpadded/negative-signed). -/
def pad4 (y : Int) : List Char :=
  if 0 ≤ y ∧ y ≤ 9999 then
    [digitChar ((y.toNat / 1000) % 10), digitChar ((y.toNat / 100) % 10),
     digitChar ((y.toNat / 10) % 10), digitChar (y.toNat % 10)]
  else if 0 ≤ y then Nat.toDigits 10 y.toNat
  else '-' :: Nat.toDigits 10 (-y).toNat

/-- Epoch seconds of Go's zero `time.Time` (0001-01-01T00:00:00 UTC);
every failure branch of `parseTimestampToTime` returns this value, and
`IsZero` compares against it. -/
def zeroTimeEpoch : Int := -62135596800

/-- Parse exactly `n` digits, returning the value and the rest. -/
def takeFixedDigits : Nat → List Char → Option (Nat × List Char)
  | 0, l => some (0, l)
  | n + 1, [] => let _ := n; none
  | n + 1, c :: cs =>
      if isDig c then do
        let (v, rest) ← takeFixedDigits n cs
        some (digVal c * 10 ^ n + v, rest)
      else none

/-- Consume one expected literal layout character (Go's `time.Parse`
matches non-reference layout bytes exactly). -/
def expectChar (c : Char) (l : List Char) : Option (List Char) :=
  match l with
  | x :: r => if x = c then some r else none
  | [] => none

/-- Skip an optional fractional-seconds field (parse-only in Go; its
value is discarded since every consumer is second-granular). -/
def skipFraction (l : List Char) : List Char :=
  match l with
  | '.' :: r =>
      let (_, fn, rest) := takeDigits r 0 0
      if fn = 0 then '.' :: r else rest
  | _ => l

/-- Parse a numeric UTC offset `±HH:MM` or literal `Z` (Go layout token
"Z07:00"), returning the offset in seconds. -/
def parseZone (l : List Char) : Option (Int × List Char) :=
  match l with
  | 'Z' :: rest => some (0, rest)
  | c :: rest =>
      if c = '+' || c = '-' then do
        let (hh, rest) ← takeFixedDigits 2 rest
        match rest with
        | ':' :: rest2 => do
            let (mm, rest3) ← takeFixedDigits 2 rest2
            if hh ≤ 23 ∧ mm ≤ 59 then
              let off : Int := (hh : Int) * 3600 + (mm : Int) * 60
              some (if c = '-' then -off else off, rest3)
            else none
        | _ => none
      else none
  | [] => none

/-- Go `time.Parse(time.RFC3339Nano, s)` restricted to epoch seconds:
`YYYY-MM-DDTHH:MM:SS[.fraction](Z|±HH:MM)`, fully consumed, with
component range validation as Go performs it.  The fractional part is
parsed and discarded: every consumer of the resulting `time.Time` in
this program (date key, hour, weekday) is second-granular. -/
def parseRFC3339 (l : List Char) : Option Int := do
  let (y, l) ← takeFixedDigits 4 l
  let l ← expectChar '-' l
  let (mo, l) ← takeFixedDigits 2 l
  let l ← expectChar '-' l
  let (d, l) ← takeFixedDigits 2 l
  let l ← expectChar 'T' l
  let (h, l) ← takeFixedDigits 2 l
  let l ← expectChar ':' l
  let (mi, l) ← takeFixedDigits 2 l
  let l ← expectChar ':' l
  let (s, l) ← takeFixedDigits 2 l
  let l := skipFraction l
  let (off, l) ← parseZone l
  if l = [] ∧ 1 ≤ mo ∧ mo ≤ 12 ∧ 1 ≤ d ∧ d ≤ daysInMonth (y : Int) mo ∧
      h ≤ 23 ∧ mi ≤ 59 ∧ s ≤ 59 then
    some (daysFromCivil (y : Int) mo d * 86400 +
      (h : Int) * 3600 + (mi : Int) * 60 + (s : Int) - off)
  else none

/-- Go `time.Parse("2006-01-02", s)` on a 10-character slice: a bare
civil date, taken as midnight UTC. -/
def parseBareDate (l : List Char) : Option Int := do
  let (y, l) ← takeFixedDigits 4 l
  let l ← expectChar '-' l
  let (mo, l) ← takeFixedDigits 2 l
  let l ← expectChar '-' l
  let (d, l) ← takeFixedDigits 2 l
  if l = [] ∧ 1 ≤ mo ∧ mo ≤ 12 ∧ 1 ≤ d ∧ d ≤ daysInMonth (y : Int) mo then
    some (daysFromCivil (y : Int) mo d * 86400)
  else none

/-- The string case of parser.go `parseTimestampToTime`, as epoch
seconds.  A Go `time.Time{}` (the zero time, returned on every failure)
is exactly the value `zeroTimeEpoch`, which is also what `time.Unix` /
`time.Parse` produce for 0001-01-01T00:00:00 UTC, so failures and that
instant are indistinguishable — precisely as in Go. -/
def parseTimestampFromChars (v : List Char) : Int :=
  if trimSpace v = [] then zeroTimeEpoch
      else if isNumeric (trimSpace v) then
        match parseGoFloat (trimSpace v) with
        | none => zeroTimeEpoch
        | some f =>
            if 13 ≤ (trimSpace v).length then f.div1000.trunc else f.trunc
      else
        match parseRFC3339 (replaceFirstZ (trimSpace v)) with
        | some ep => ep
        | none =>
            if 10 ≤ (trimSpace v).length then
              if (trimSpace v).getD 4 ' ' = '-' ∧
                  (trimSpace v).getD 7 ' ' = '-' then
                match parseBareDate ((trimSpace v).take 10) with
                | some ep => ep
                | none => zeroTimeEpoch
              else zeroTimeEpoch
            else zeroTimeEpoch

/-- parser.go `parseTimestampToTime` proper: dispatch on the dynamic type
of the timestamp value (number, string, or anything else). -/
def parseTimestampToTime (ts : JVal) : Int :=
  match ts with
  | .num d =>
      if d.gtInt 10000000000 then d.div1000.trunc else d.trunc
  | .jstr v => parseTimestampFromChars v
  | _ => zeroTimeEpoch

/-- Date key (Go layout "2006-01-02") of a local instant. -/
def formatDateKey (tz : Int → Int) (ep : Int) : List Char :=
  let loc := ep + tz ep
  let days := loc.fdiv 86400
  let (y, m, d) := civilFromDays days
  pad4 y ++ '-' :: (pad2 m ++ '-' :: pad2 d)

/-- parser.go `parseTimestampToDate`: empty string when the resolved time
is the Go zero time, else the local date key. -/
def parseTimestampToDate (tz : Int → Int) (ts : JVal) : List Char :=
  let t := parseTimestampToTime ts
  if t = zeroTimeEpoch then [] else formatDateKey tz t

/-- Go weekday (Sunday = 0) of a day count since the epoch
(1970-01-01 was a Thursday, weekday 4). -/
def goWeekday (days : Int) : Int := (days + 4).emod 7

/-- parser.go `parseTimestampToHourDOW`: local hour and Monday-based
weekday, both absent exactly when the resolved time is the zero time. -/
def parseTimestampToHourDOW (tz : Int → Int) (ts : JVal) :
    Option Int × Option Int :=
  let t := parseTimestampToTime ts
  if t = zeroTimeEpoch then (none, none)
  else
    let loc := t + tz t
    let h := (loc.emod 86400).ediv 3600
    let wd := goWeekday (loc.fdiv 86400)
    (some h, some ((wd + 6).emod 7))

/-- Canonical usage record, parser.go's `UsageRecord`. -/
structure UsageRecord where
  agentName : List Char
  model : List Char
  dateKey : List Char
  tokens : Int
  cost : Dec
  hour : Option Int
  dow : Option Int
deriving DecidableEq, Repr

/-- parser.go `ParseLine`: one raw JSONL line to an optional usage record.
The local time zone enters as the offset function `tz`. -/
def ParseLine (tz : Int → Int) (agentName : List Char) (line : List Char) :
    Option UsageRecord :=
  let line := trimSpace line
  if line = [] then none
  else
    match jparse line with
    | none => none
    | some v =>
        match decodeRawRecord v with
        | none => none
        | some rec =>
            match extractUsage rec with
            | none => none
            | some usage =>
                let tokens := extractTotalTokens usage
                if tokens ≤ 0 then none
                else
                  let ts := extractTimestamp rec
                  let dk0 := parseTimestampToDate tz ts
                  let dateKey := if dk0 = [] then unknownKey else dk0
                  let cost := extractCost rec usage
                  let model := extractModel rec
                  let hd := parseTimestampToHourDOW tz ts
                  some ⟨agentName, model, dateKey, tokens, cost, hd.1, hd.2⟩

/-! db.go: the SQLite cache and the sync pass.  The two tables are lists
kept in insertion order; the UNIQUE(source_file, source_offset) index, the
per-file SAVEPOINT (a failing file rolls back only its own changes and is
skipped) and the 2 MiB scanner line bound are modelled.  I/O failures
(stat/open/read errors) are not modelled: every enumerated file is
readable, which is the regime of all the claims. -/

/-- One row of `usage_records`. -/
structure DBRec where
  agentName : List Char
  model : List Char
  dateKey : List Char
  tokens : Int
  cost : Dec
  hour : Option Int
  dow : Option Int
  sourceFile : List Char
  sourceOffset : Int
deriving DecidableEq, Repr

/-- One row of `file_state` (`file_path` is the primary key). -/
structure FState where
  path : List Char
  agent : List Char
  lastOffset : Int
deriving DecidableEq, Repr

/-- The cache: both tables. -/
structure DB where
  records : List DBRec
  states : List FState
deriving DecidableEq, Repr

/-- A session file as enumerated by `IterSessionFiles`, with its current
content (the bytes `os.Stat`/`os.Open` see during the pass). -/
structure FileOnDisk where
  agentName : List Char
  path : List Char
  content : List Char
deriving DecidableEq, Repr

/-- db.go `SyncResult`. -/
structure SyncResult where
  newRecords : Nat
  syncedFiles : Nat
  skippedFiles : Nat
deriving DecidableEq, Repr

/-- UTF-8 byte length of a character list (Go strings are byte slices;
`len(raw)` counts bytes). -/
def utf8Len (l : List Char) : Nat := (l.map Char.utf8Size).sum

/-- Split on newline bytes (keeping empty segments, like
`strings.Split`). -/
def splitNl : List Char → List (List Char)
  | [] => [[]]
  | c :: cs =>
      match splitNl cs with
      | [] => [[c]]
      | h :: t => if c = '\n' then [] :: h :: t else (c :: h) :: t

/-- `bufio.ScanLines` carriage-return stripping: drop one trailing CR. -/
def dropCR (l : List Char) : List Char :=
  match l.reverse with
  | '\r' :: r => r.reverse
  | _ => l

/-- Tokens produced by a `bufio.Scanner` with `ScanLines` over the whole
input: newline-separated lines, each without its terminator and without
a trailing CR; a final unterminated line is still produced; a trailing
newline does not produce an extra empty token. -/
def scanLines (content : List Char) : List (List Char) :=
  if content = [] then []
  else
    let parts := splitNl content
    let parts := if content.getLast? = some '\n' then parts.dropLast else parts
    parts.map dropCR

/-- Drop the first `n` bytes (Go `f.Seek(n, io.SeekStart)`; every offset
the program stores is a sum of whole-line byte lengths, so `n` never
falls inside a multi-byte character in reachable states). -/
def dropBytes (n : Nat) : List Char → List Char
  | [] => []
  | c :: cs => if n = 0 then c :: cs else dropBytes (n - c.utf8Size) cs

/-- Scanner maximum token size set by `scanner.Buffer` (2 MiB); a longer
line makes the scan fail and the file skipped. -/
def maxLineLen : Nat := 2 * 1024 * 1024

/-- `INSERT INTO usage_records`: fails on a (source_file, source_offset)
unique-index violation. -/
def insertRecord (recs : List DBRec) (r : DBRec) : Option (List DBRec) :=
  if recs.any (fun q => q.sourceFile = r.sourceFile ∧ q.sourceOffset = r.sourceOffset)
  then none
  else some (recs ++ [r])

/-- Build the stored row from a parsed record. -/
def mkDBRec (u : UsageRecord) (path : List Char) (offset : Int) : DBRec :=
  ⟨u.agentName, u.model, u.dateKey, u.tokens, u.cost, u.hour, u.dow, path, offset⟩

/-- The scan loop of `syncOneFile`: process each line, advancing the
running offset by line length plus one separator byte, inserting the
parsed records tagged with the line start offset.  `none` models a
scanner or insert error (the file's savepoint is rolled back). -/
def syncLines (tz : Int → Int) (agent path : List Char) :
    List (List Char) → List DBRec → Int → Nat →
    Option (List DBRec × Int × Nat)
  | [], recs, offset, count => some (recs, offset, count)
  | line :: rest, recs, offset, count =>
      if maxLineLen < utf8Len line then none
      else
        let lineOffset := offset
        let offset2 := offset + (utf8Len line : Int) + 1
        match ParseLine tz agent line with
        | none => syncLines tz agent path rest recs offset2 count
        | some u =>
            match insertRecord recs (mkDBRec u path lineOffset) with
            | none => none
            | some recs2 => syncLines tz agent path rest recs2 offset2 (count + 1)

/-- db.go's truncation test: a `file_state` row exists and the current
size is strictly below the stored offset. -/
def truncationDetected (db : DB) (f : FileOnDisk) : Bool :=
  match db.states.find? (fun s => s.path = f.path) with
  | none => false
  | some st => decide ((utf8Len f.content : Int) < st.lastOffset)

/-- db.go `syncOneFile`.  Result: `none` on a per-file error (rolled back
and skipped), else the updated cache, the synced flag, the number of
new records, and — as instrumentation for the offset-monotonicity
claim — the sequence of values written to `file_state.last_offset`
during the pass. -/
def syncOneFile (tz : Int → Int) (db : DB) (f : FileOnDisk) :
    Option (DB × Bool × Nat × List Int) :=
  let st := db.states.find? (fun s => s.path = f.path)
  let hasRow := st.isSome
  let lastOffset0 : Int := match st with
    | some s => s.lastOffset
    | none => 0
  let size : Int := (utf8Len f.content : Int)
  let step1 : DB × Int × List Int :=
    if hasRow ∧ size < lastOffset0 then
      (⟨db.records.filter (fun r => ¬ r.sourceFile = f.path),
        db.states.map (fun s => if s.path = f.path then ⟨s.path, s.agent, 0⟩ else s)⟩,
       0, [0])
    else (db, lastOffset0, [])
  let db1 := step1.1
  let lastOffset := step1.2.1
  let writes0 := step1.2.2
  if size ≤ lastOffset then some (db1, false, 0, writes0)
  else
    let tail := dropBytes lastOffset.toNat f.content
    match syncLines tz f.agentName f.path (scanLines tail) db1.records lastOffset 0 with
    | none => none
    | some (recs, newOffset, count) =>
        let states :=
          if hasRow then
            db1.states.map (fun s =>
              if s.path = f.path then ⟨s.path, s.agent, newOffset⟩ else s)
          else db1.states ++ [⟨f.path, f.agentName, newOffset⟩]
        some (⟨recs, states⟩, true, count, writes0 ++ [newOffset])

/-- db.go `Sync` over an enumerated file list (the `IterSessionFiles`
listing; its sort order does not affect any claim).  A file whose
`syncOneFile` fails is rolled back to the savepoint and counted
skipped; an unsynced (nothing-new) file is counted skipped; the outer
commit is not modelled as failing.  `syncStep` is one iteration of the
loop body. -/
def syncStep (tz : Int → Int) (acc : DB × SyncResult) (f : FileOnDisk) :
    DB × SyncResult :=
  match syncOneFile tz acc.1 f with
  | none =>
      (acc.1, ⟨acc.2.newRecords, acc.2.syncedFiles, acc.2.skippedFiles + 1⟩)
  | some (db2, synced, n, _) =>
      if synced then
        (db2, ⟨acc.2.newRecords + n, acc.2.syncedFiles + 1, acc.2.skippedFiles⟩)
      else
        (db2, ⟨acc.2.newRecords, acc.2.syncedFiles, acc.2.skippedFiles + 1⟩)

/-- db.go `Sync`: the per-file loop over the enumerated files. -/
def Sync (tz : Int → Int) (db : DB) (files : List FileOnDisk) :
    DB × SyncResult :=
  files.foldl (syncStep tz) (db, ⟨0, 0, 0⟩)

/-! Aggregation (db.go `CollectStats`).  SQLite TEXT comparison is BINARY
(memcmp on UTF-8 bytes), which coincides with code-point lexicographic
order; the ORDER BY clauses only order the result lists and no claim
depends on row order, so groups are emitted in first-occurrence order. -/

/-- Bytewise (code-point) strict order on strings, SQLite's BINARY
collation. -/
def charListLt : List Char → List Char → Bool
  | [], [] => false
  | [], _ :: _ => true
  | _ :: _, [] => false
  | a :: as, b :: bs =>
      if a.toNat < b.toNat then true
      else if b.toNat < a.toNat then false
      else charListLt as bs

/-- Bytewise order, non-strict. -/
def charListLe (a b : List Char) : Bool := ! charListLt b a

/-- The WHERE clause built by `CollectStats` (db.go): with no bound, no
filter; with either bound, `date_key != 'unknown'` plus the given
range comparisons. -/
def dateFilter (startDate endDate : List Char) (d : List Char) : Bool :=
  if startDate = [] && endDate = [] then true
  else
    decide (¬ d = unknownKey) &&
    (startDate = [] || charListLe startDate d) &&
    (endDate = [] || charListLe d endDate)

/-- Rows matching the date filter. -/
def filteredRecords (startDate endDate : List Char) (recs : List DBRec) :
    List DBRec :=
  recs.filter (fun r => dateFilter startDate endDate r.dateKey)

/-- `SUM(tokens)` over a row group. -/
def sumTokens (recs : List DBRec) : Int := (recs.map DBRec.tokens).sum

/-- `SUM(cost)` over a row group (exact; float-addition rounding is not
observable by any claim). -/
def sumCost (recs : List DBRec) : Dec :=
  recs.foldl (fun a r => a.add r.cost) Dec.zero

/-- db.go `AgentTotal`. -/
structure AgentTotal where
  agent : List Char
  tokens : Int
  cost : Dec
  records : Nat
deriving DecidableEq, Repr

/-- db.go `ModelTotal`. -/
structure ModelTotal where
  model : List Char
  tokens : Int
  cost : Dec
  records : Nat
deriving DecidableEq, Repr

/-- db.go `DailyTokens`. -/
structure DailyTokens where
  date : List Char
  tokens : Int
  cost : Dec
  records : Nat
deriving DecidableEq, Repr

/-- db.go `HeatmapCell`. -/
structure HeatmapCell where
  dow : Int
  hour : Int
  tokens : Int
  cost : Dec
deriving DecidableEq, Repr

/-- The per-agent GROUP BY query. -/
def agentTotals (startDate endDate : List Char) (recs : List DBRec) :
    List AgentTotal :=
  let m := filteredRecords startDate endDate recs
  (m.map DBRec.agentName).dedup.map (fun a =>
    let g := m.filter (fun r => r.agentName = a)
    ⟨a, sumTokens g, (sumCost g).round6, g.length⟩)

/-- The per-model GROUP BY query. -/
def modelTotals (startDate endDate : List Char) (recs : List DBRec) :
    List ModelTotal :=
  let m := filteredRecords startDate endDate recs
  (m.map DBRec.model).dedup.map (fun a =>
    let g := m.filter (fun r => r.model = a)
    ⟨a, sumTokens g, (sumCost g).round6, g.length⟩)

/-- The daily-series GROUP BY query. -/
def dailyTokens (startDate endDate : List Char) (recs : List DBRec) :
    List DailyTokens :=
  let m := filteredRecords startDate endDate recs
  (m.map DBRec.dateKey).dedup.map (fun a =>
    let g := m.filter (fun r => r.dateKey = a)
    ⟨a, sumTokens g, (sumCost g).round6, g.length⟩)

/-- Rows feeding the heatmap query: date-filtered rows further restricted
to those with both `hour` and `dow` present. -/
def heatmapRows (startDate endDate : List Char) (recs : List DBRec) :
    List DBRec :=
  (filteredRecords startDate endDate recs).filter
    (fun r => r.hour.isSome && r.dow.isSome)

/-- GROUP BY key of the heatmap query (fields are present on every
heatmap row, so the defaults never surface). -/
def heatmapKey (r : DBRec) : Int × Int := (r.dow.getD 0, r.hour.getD 0)

/-- The heatmap query: heatmap rows grouped by (dow, hour). -/
def heatmapCells (startDate endDate : List Char) (recs : List DBRec) :
    List HeatmapCell :=
  let m := heatmapRows startDate endDate recs
  (m.map heatmapKey).dedup.map (fun k =>
    let g := m.filter (fun r => heatmapKey r = k)
    ⟨k.1, k.2, sumTokens g, (sumCost g).round6⟩)

/-- db.go `Summary`. -/
structure Summary where
  totalTokens : Int
  totalCost : Dec
  usageRecords : Nat
  sessionFiles : Nat
  agentCount : Nat
  modelCount : Nat
  dayCount : Nat
deriving DecidableEq, Repr

/-- The queried part of db.go's `StatsResponse` (generation timestamp and
source path omitted). -/
structure Stats where
  sync : SyncResult
  summary : Summary
  agentTotals : List AgentTotal
  modelTotals : List ModelTotal
  dailyTokens : List DailyTokens
  heatmap : List HeatmapCell
deriving DecidableEq, Repr

/-- db.go `CollectStats`: run a sync pass, then aggregate from the updated
cache under the optional date range (empty string = absent bound). -/
def CollectStats (tz : Int → Int) (db : DB) (files : List FileOnDisk)
    (startDate endDate : List Char) : DB × Stats :=
  let (db2, syncResult) := Sync tz db files
  let m := filteredRecords startDate endDate db2.records
  let agents := agentTotals startDate endDate db2.records
  let models := modelTotals startDate endDate db2.records
  let daily := dailyTokens startDate endDate db2.records
  let heat := heatmapCells startDate endDate db2.records
  (db2,
   ⟨syncResult,
    ⟨sumTokens m, (sumCost m).round6, m.length, db2.states.length,
     agents.length, models.length, daily.length⟩,
    agents, models, daily, heat⟩)

/-! Derived state accessors and concrete scenario data used by the
claim theorems. -/

/-- Stored `last_offset` for a path, if a `file_state` row exists. -/
def storedOffsetOpt (db : DB) (path : List Char) : Option Int :=
  (db.states.find? (fun s => s.path = path)).map FState.lastOffset

/-- Stored `last_offset` for a path, 0 when the file is unseen (the value
`syncOneFile` starts from). -/
def storedOffsetD (db : DB) (path : List Char) : Int :=
  (storedOffsetOpt db path).getD 0

/-- The UTC (no-offset) time zone used to close concrete scenarios; none
of them carries a timestamp whose local rendering matters. -/
def tzUTC : Int → Int := fun _ => 0

/-- A JSONL line holding a usage object with an explicit token total, as
bytes including the terminating newline. -/
def jsonlTokenLine (n : String) : List Char :=
  ("\x7b\x22usage\x22:\x7b\x22tokens\x22:" ++ n ++ "\x7d\x7d" ++ "\n").data

/-- Truncation scenario, file A first version: lines of 10 and 20 tokens
(24 bytes each, 48 total). -/
def scFileA1 : FileOnDisk :=
  ⟨("alpha").data, ("a.jsonl").data, jsonlTokenLine "10" ++ jsonlTokenLine "20"⟩

/-- Truncation scenario, file B: one line of 5 tokens. -/
def scFileB : FileOnDisk :=
  ⟨("alpha").data, ("b.jsonl").data, jsonlTokenLine "5"⟩

/-- Truncation scenario, file A rewritten: a single 7-token line
(23 bytes, smaller than the 48-byte original). -/
def scFileA2 : FileOnDisk :=
  ⟨("alpha").data, ("a.jsonl").data, jsonlTokenLine "7"⟩

/-- The empty cache. -/
def emptyDB : DB := ⟨[], []⟩

/-- A cached row for the truncation scenarios. -/
def scRec (tok : Int) (path : List Char) (off : Int) : DBRec :=
  ⟨("alpha").data, unknownKey, unknownKey, tok, Dec.zero, none, none, path, off⟩

/-- A cache state in which file A's stored offset (48) exceeds its current
size (23): the shrunk-file situation. -/
def scShrunkDB : DB :=
  ⟨[scRec 10 (("a.jsonl").data) 0, scRec 20 (("a.jsonl").data) 24],
   [⟨("a.jsonl").data, ("alpha").data, 48⟩]⟩

/-- A cache state exactly in sync with `scFileB` (stored offset 23 equals
the file size). -/
def scSyncedB : DB :=
  ⟨[scRec 5 (("b.jsonl").data) 0], [⟨("b.jsonl").data, ("alpha").data, 23⟩]⟩

/-- A line timestamped on a Monday (1970-01-05), for the weekday
anchoring of C7. -/
def scMondayLine : List Char :=
  ("\x7b\x22timestamp\x22:\x221970-01-05T00:00:00Z\x22,\x22usage\x22:\x7b\x22tokens\x22:1\x7d\x7d").data

/-- A line timestamped on a Sunday (1970-01-04, 23:59:59), for the weekday
anchoring of C7. -/
def scSundayLine : List Char :=
  ("\x7b\x22timestamp\x22:\x221970-01-04T23:59:59Z\x22,\x22usage\x22:\x7b\x22tokens\x22:1\x7d\x7d").data

/-- The record parsed from `scMondayLine` under UTC. -/
def rMonday : UsageRecord :=
  ⟨("alpha").data, unknownKey, ("1970-01-05").data, 1, Dec.zero, some 0, some 0⟩

/-- An `"unknown"`-dated cached row (C2 witness data). -/
def c2RecUnknown : DBRec := scRec 5 (("b.jsonl").data) 0

/-- A dated cached row outside the witness range (C2 witness data). -/
def c2RecDated : DBRec :=
  ⟨("alpha").data, unknownKey, ("2025-12-30").data, 7, Dec.zero, none, none,
   ("a.jsonl").data, 0⟩

/-- Rows for the C2 witness: one "unknown"-dated, one dated row that does
not satisfy the range. -/
def c2Recs : List DBRec := [c2RecUnknown, c2RecDated]

/-- Rows for the C8 witness: two rows in the (dow 1, hour 14) bucket and
one without hour/dow. -/
def c8Recs : List DBRec :=
  [⟨("alpha").data, unknownKey, ("2026-02-17").data, 3, Dec.zero, some 14,
    some 1, ("a.jsonl").data, 0⟩,
   ⟨("alpha").data, unknownKey, unknownKey, 5, Dec.zero, none, none,
    ("a.jsonl").data, 60⟩,
   ⟨("alpha").data, unknownKey, ("2026-02-17").data, 4, Dec.zero, some 14,
    some 1, ("a.jsonl").data, 120⟩]

/-- The single heatmap cell produced by `c8Recs` without a date filter. -/
def c8Cell : HeatmapCell := ⟨1, 14, 7, ⟨0, 6⟩⟩

/-- C4 counterexample line: the usage object carries an explicit total
field (`totalTokens`, value 0) alongside a component field (`input`,
value 5). -/
def c4Line : List Char :=
  ("\x7b\x22usage\x22:\x7b\x22totalTokens\x22:0,\x22input\x22:5\x7d\x7d").data

/-- A usage whose explicit total (7) disagrees with its component sum (5),
for the C4 witness. -/
def c4PrecUsage : RawUsage :=
  ⟨.num ⟨7, 0⟩, .null, .null, .null, .num ⟨5, 0⟩, .null, .null, .null,
   .null, .null, .null, .null, .null, .null⟩

/-- A usage whose only field is a fractional `input` of 10.9, for C10. -/
def c10Usage : RawUsage :=
  ⟨.null, .null, .null, .null, .num ⟨109, 1⟩, .null, .null, .null,
   .null, .null, .null, .null, .null, .null⟩

/-- Epoch seconds of a civil UTC instant (what every accepted timestamp
form resolves to). -/
def epochOfCivil (y : Int) (mo d h mi sec : Nat) : Int :=
  daysFromCivil y mo d * 86400 + (h : Int) * 3600 + (mi : Int) * 60 + (sec : Int)

/-- The canonical ISO-8601 "Z"-suffixed rendering of a civil instant. -/
def mkIso (y : Int) (mo d h mi sec : Nat) : List Char :=
  pad4 y ++ ['-'] ++ pad2 (mo : Int) ++ ['-'] ++ pad2 (d : Int) ++ ['T'] ++
    pad2 (h : Int) ++ [':'] ++ pad2 (mi : Int) ++ [':'] ++
    pad2 (sec : Int) ++ ['Z']

/-- The bare `YYYY-MM-DD` rendering of a civil date. -/
def mkBareDate (y : Int) (mo d : Nat) : List Char :=
  pad4 y ++ ['-'] ++ pad2 (mo : Int) ++ ['-'] ++ pad2 (d : Int)

/-- C5 counterexample line: the instant 1970-01-02T00:00:00Z as unix
seconds. -/
def c5SecLine : List Char :=
  ("\x7b\x22timestamp\x22:86400,\x22usage\x22:\x7b\x22tokens\x22:1\x7d\x7d").data

/-- C5 counterexample line: the same instant in milliseconds. -/
def c5MsLine : List Char :=
  ("\x7b\x22timestamp\x22:86400000,\x22usage\x22:\x7b\x22tokens\x22:1\x7d\x7d").data

/-- The cache state produced by syncing the shrunk file A over
`scShrunkDB`: both stale rows deleted, the 7-token line re-read. -/
def c6ResultDB : DB :=
  ⟨[scRec 7 (("a.jsonl").data) 0], [⟨("a.jsonl").data, ("alpha").data, 23⟩]⟩

/-- The rows a conflict-free scan inserts: each parsed line becomes a row
tagged with its start offset, the running offset advancing by line length
plus one separator byte.  This is the pure image of the scan loop of
`syncOneFile`, used to characterize a full re-read of a file. -/
def parseNewLines (tz : Int → Int) (agent path : List Char) :
    List (List Char) → Int → List DBRec
  | [], _ => []
  | l :: rest, off =>
      match ParseLine tz agent l with
      | none => parseNewLines tz agent path rest (off + (utf8Len l : Int) + 1)
      | some u =>
          mkDBRec u path off ::
            parseNewLines tz agent path rest (off + (utf8Len l : Int) + 1)

/-- C9 witness data: a session file whose single 22-byte line is not
terminated by a newline byte. -/
def c9File : FileOnDisk :=
  ⟨("alpha").data, ("c.jsonl").data,
   ("\x7b\x22usage\x22:\x7b\x22tokens\x22:3\x7d\x7d").data⟩

/-- The cache after the first sync of `c9File`: one 3-token row, and a
stored offset of 23 — one byte past the 22-byte file. -/
def c9DB1 : DB :=
  ⟨[scRec 3 (("c.jsonl").data) 0],
   [⟨("c.jsonl").data, ("alpha").data, 23⟩]⟩

/-! ## Theorems -/

/-- C1.  Truncation correctness: the first sync over files A (10- and
20-token lines) and B (one 5-token line) caches 3 records totalling 35
tokens; after A is rewritten to a single 7-token line, the second sync
leaves exactly 2 cached records totalling 12 tokens, exactly one of them
attributed to file A; a third sync with no further changes inserts zero
new records and leaves the cache (hence all totals) unchanged. -/
theorem c1_truncation_correctness :
    (Sync tzUTC emptyDB [scFileA1, scFileB]).1.records.length = 3 ∧
    sumTokens (Sync tzUTC emptyDB [scFileA1, scFileB]).1.records = 35 ∧
    (Sync tzUTC (Sync tzUTC emptyDB [scFileA1, scFileB]).1
        [scFileA2, scFileB]).1.records.length = 2 ∧
    sumTokens (Sync tzUTC (Sync tzUTC emptyDB [scFileA1, scFileB]).1
        [scFileA2, scFileB]).1.records = 12 ∧
    ((Sync tzUTC (Sync tzUTC emptyDB [scFileA1, scFileB]).1
        [scFileA2, scFileB]).1.records.filter
      (fun r => r.sourceFile = scFileA2.path)).length = 1 ∧
    (Sync tzUTC (Sync tzUTC (Sync tzUTC emptyDB [scFileA1, scFileB]).1
        [scFileA2, scFileB]).1 [scFileA2, scFileB]).2.newRecords = 0 ∧
    Sync tzUTC (Sync tzUTC (Sync tzUTC emptyDB [scFileA1, scFileB]).1
        [scFileA2, scFileB]).1 [scFileA2, scFileB] =
      ((Sync tzUTC (Sync tzUTC emptyDB [scFileA1, scFileB]).1
        [scFileA2, scFileB]).1, ⟨0, 0, 2⟩) := by
  decide

/-- Helper for C3: a file whose current size equals the offset the pass
starts from is skipped without touching the cache. -/
theorem syncOneFile_skip_of_size_eq (tz : Int → Int) (db : DB) (f : FileOnDisk)
    (h : (utf8Len f.content : Int) = storedOffsetD db f.path) :
    syncOneFile tz db f = some (db, false, 0, []) := by
  unfold syncOneFile
  cases hf : db.states.find? (fun s => s.path = f.path) with
  | none =>
      simp [storedOffsetD, storedOffsetOpt, hf] at h
      simp [hf, h]
  | some s =>
      simp [storedOffsetD, storedOffsetOpt, hf] at h
      simp [hf, h]

/-- Helper for C3: the sync fold over files that are all exactly in sync
only increments the skip counter. -/
theorem sync_fold_noop (tz : Int → Int) (db : DB) :
    ∀ (files : List FileOnDisk) (res : SyncResult),
    (∀ f ∈ files, (utf8Len f.content : Int) = storedOffsetD db f.path) →
    files.foldl (syncStep tz) (db, res) =
      (db, ⟨res.newRecords, res.syncedFiles, res.skippedFiles + files.length⟩) := by
  intro files
  induction files with
  | nil => intro res _; simp
  | cons f rest ih =>
      intro res h
      have hf := h f (by simp)
      have hrest : ∀ g ∈ rest, (utf8Len g.content : Int) = storedOffsetD db g.path := by
        intro g hg; exact h g (by simp [hg])
      have hstep : syncStep tz (db, res) f =
          (db, ⟨res.newRecords, res.syncedFiles, res.skippedFiles + 1⟩) := by
        simp [syncStep, syncOneFile_skip_of_size_eq tz db f hf]
      rw [List.foldl_cons, hstep,
        ih ⟨res.newRecords, res.syncedFiles, res.skippedFiles + 1⟩ hrest]
      simp
      omega

/-- C3 counterexample: a cache whose stored offset for file A (48) is
not exceeded by A's current size (23) — the claim's premise — yet a sync
inserts one new record and changes the table, because the strict
size-below-offset case triggers deletion and a full re-read. -/
theorem c3_counterexample :
    ((utf8Len scFileA2.content : Int) ≤ storedOffsetD scShrunkDB scFileA2.path) ∧
    (Sync tzUTC scShrunkDB [scFileA2]).2.newRecords = 1 ∧
    (Sync tzUTC scShrunkDB [scFileA2]).1.records ≠ scShrunkDB.records := by
  decide

/-- C3, amended.  When every enumerated file's current size equals its
stored last offset (0 for unseen files) — i.e. no file has grown,
shrunk, or appeared with content — re-running Sync inserts zero new
records, syncs zero files, skips them all, and leaves the cache, and
therefore every aggregate computed from it, unchanged. -/
theorem c3_sync_idempotent (tz : Int → Int) (db : DB) (files : List FileOnDisk)
    (h : ∀ f ∈ files, (utf8Len f.content : Int) = storedOffsetD db f.path) :
    Sync tz db files = (db, ⟨0, 0, files.length⟩) := by
  unfold Sync
  have := sync_fold_noop tz db files ⟨0, 0, 0⟩ h
  simpa using this

/-- C3 witness: the amended idempotence theorem applied to a concrete
in-sync cache and file. -/
theorem c3_sync_idempotent_witness :
    Sync tzUTC scSyncedB [scFileB] = (scSyncedB, ⟨0, 0, 1⟩) := by
  exact c3_sync_idempotent tzUTC scSyncedB [scFileB] (by decide)

/-- The scan loop never moves the running offset backwards. -/
theorem syncLines_offset_le (tz : Int → Int) (agent path : List Char) :
    ∀ (lines : List (List Char)) (recs : List DBRec) (off : Int) (cnt : Nat)
      (recs2 : List DBRec) (off2 : Int) (cnt2 : Nat),
    syncLines tz agent path lines recs off cnt = some (recs2, off2, cnt2) →
    off ≤ off2 := by
  intro lines
  induction lines with
  | nil =>
      intro recs off cnt recs2 off2 cnt2 h
      simp only [syncLines, Option.some.injEq, Prod.mk.injEq] at h
      omega
  | cons line rest ih =>
      intro recs off cnt recs2 off2 cnt2 h
      simp only [syncLines] at h
      split at h
      · exact absurd h (by simp)
      · have hline : (0 : Int) ≤ (utf8Len line : Int) := Int.natCast_nonneg _
        split at h
        · exact le_trans (by omega) (ih _ _ _ _ _ _ h)
        · split at h
          · exact absurd h (by simp)
          · exact le_trans (by omega) (ih _ _ _ _ _ _ h)

/-- Updating the offset of the found `file_state` row commutes with the
lookup. -/
theorem find?_states_map (l : List FState) (p : List Char) (v : Int) :
    (l.map (fun s => if s.path = p then FState.mk s.path s.agent v else s)).find?
      (fun s => s.path = p)
    = (l.find? (fun s => s.path = p)).map
        (fun s => FState.mk s.path s.agent v) := by
  induction l with
  | nil => simp
  | cons s rest ih =>
      by_cases hp : s.path = p
      · simp [hp, List.find?_cons_of_pos]
      · simp only [List.map_cons, if_neg hp]
        rw [List.find?_cons_of_neg _ (by simp [hp]),
          List.find?_cons_of_neg _ (by simp [hp])]
        exact ih

/-- C6.  Offset monotonicity: along one `syncOneFile` pass, the sequence
of values the pass writes to `file_state.last_offset` (prefixed with the
previously stored value, when one exists) never decreases, except for a
write of zero in a pass that detected truncation; and the stored offset
after the pass is the last written value (or the old one if nothing was
written). -/
theorem c6_offset_monotonic (tz : Int → Int) (db : DB) (f : FileOnDisk)
    (db2 : DB) (synced : Bool) (n : Nat) (writes : List Int)
    (h : syncOneFile tz db f = some (db2, synced, n, writes)) :
    List.Chain'
      (fun a b => a ≤ b ∨ (b = 0 ∧ truncationDetected db f = true))
      ((storedOffsetOpt db f.path).toList ++ writes)
    ∧ storedOffsetOpt db2 f.path =
        Option.or writes.getLast? (storedOffsetOpt db f.path) := by
  unfold syncOneFile at h
  cases hf : db.states.find? (fun s => s.path = f.path) with
  | none =>
      simp only [hf, Option.isSome_none, storedOffsetOpt] at h ⊢
      simp only [Bool.false_eq_true, false_and, if_false, reduceIte] at h
      split at h
      · simp only [Option.some.injEq, Prod.mk.injEq] at h
        obtain ⟨hdb, _, _, hw⟩ := h
        subst hdb
        subst hw
        simp [hf]
      · split at h
        · exact absurd h (by simp)
        · rename_i recs3 off3 cnt3 hlines
          simp only [Option.some.injEq, Prod.mk.injEq] at h
          obtain ⟨hdb, _, _, hw⟩ := h
          subst hdb
          subst hw
          refine ⟨by simp, ?_⟩
          simp only [List.find?_append, hf, Option.none_or]
          rw [List.find?_cons_of_pos _ (by simp)]
          simp
  | some s =>
      simp only [hf, Option.isSome_some, storedOffsetOpt] at h ⊢
      by_cases htr : (utf8Len f.content : Int) < s.lastOffset
      · have htrd : truncationDetected db f = true := by
          simp [truncationDetected, hf, htr]
        simp only [htr, true_and, if_true, reduceIte] at h
        split at h
        · simp only [Option.some.injEq, Prod.mk.injEq] at h
          obtain ⟨hdb, _, _, hw⟩ := h
          subst hdb
          subst hw
          refine ⟨by simp [List.chain'_cons, htrd], ?_⟩
          rw [find?_states_map db.states f.path 0, hf]
          simp
        · split at h
          · exact absurd h (by simp)
          · rename_i recs3 off3 cnt3 hlines
            have hle : (0 : Int) ≤ off3 :=
              syncLines_offset_le tz f.agentName f.path _ _ _ _ _ _ _ hlines
            simp only [Option.some.injEq, Prod.mk.injEq] at h
            obtain ⟨hdb, _, _, hw⟩ := h
            subst hdb
            subst hw
            refine ⟨by simp [List.chain'_cons, htrd, hle], ?_⟩
            rw [show (List.map (fun s =>
                  if s.path = f.path then FState.mk s.path s.agent off3 else s)
                  (List.map (fun s =>
                    if s.path = f.path then FState.mk s.path s.agent 0 else s)
                    db.states)).find? (fun s => s.path = f.path) =
                _ from find?_states_map _ f.path off3,
              find?_states_map db.states f.path 0, hf]
            simp
      · simp only [htr, true_and, false_and, and_false,
          if_false, reduceIte] at h
        split at h
        · simp only [Option.some.injEq, Prod.mk.injEq] at h
          obtain ⟨hdb, _, _, hw⟩ := h
          subst hdb
          subst hw
          simp [hf]
        · split at h
          · exact absurd h (by simp)
          · rename_i recs3 off3 cnt3 hlines
            have hle : s.lastOffset ≤ off3 :=
              syncLines_offset_le tz f.agentName f.path _ _ _ _ _ _ _ hlines
            simp only [Option.some.injEq, Prod.mk.injEq] at h
            obtain ⟨hdb, _, _, hw⟩ := h
            subst hdb
            subst hw
            refine ⟨by simp [List.chain'_cons, hle], ?_⟩
            rw [find?_states_map db.states f.path off3, hf]
            simp

/-- Hour and weekday of `parseTimestampToHourDOW` are both absent or both
present, and in range when present. -/
theorem hourDOW_props (tz : Int → Int) (ts : JVal) :
    ((parseTimestampToHourDOW tz ts).1 = none ↔
      (parseTimestampToHourDOW tz ts).2 = none)
    ∧ (∀ a, (parseTimestampToHourDOW tz ts).1 = some a → 0 ≤ a ∧ a ≤ 23)
    ∧ (∀ b, (parseTimestampToHourDOW tz ts).2 = some b → 0 ≤ b ∧ b ≤ 6) := by
  simp only [parseTimestampToHourDOW]
  split
  · simp
  · simp only [Option.some.injEq]
    have ediv_eq : ∀ x y : Int, x.ediv y = x / y := fun _ _ => rfl
    have emod_eq : ∀ x y : Int, x.emod y = x % y := fun _ _ => rfl
    refine ⟨by simp, ?_, ?_⟩
    · intro a ha
      simp only [ediv_eq, emod_eq] at ha
      omega
    · intro b hb
      simp only [goWeekday, ediv_eq, emod_eq] at hb
      omega

/-- Every record `ParseLine` emits takes its hour and weekday directly
from `parseTimestampToHourDOW` on the line's resolved timestamp. -/
theorem ParseLine_hourDOW (tz : Int → Int) (agent line : List Char)
    (r : UsageRecord) (h : ParseLine tz agent line = some r) :
    ∃ ts, r.hour = (parseTimestampToHourDOW tz ts).1 ∧
      r.dow = (parseTimestampToHourDOW tz ts).2 := by
  simp only [ParseLine] at h
  split at h
  · exact absurd h (by simp)
  · split at h
    · exact absurd h (by simp)
    · split at h
      · exact absurd h (by simp)
      · split at h
        · exact absurd h (by simp)
        · split at h
          · exact absurd h (by simp)
          · simp only [Option.some.injEq] at h
            subst h
            exact ⟨_, rfl, rfl⟩

/-- C7.  Every `UsageRecord` produced by `ParseLine` has hour and
day-of-week both present or both absent; a present hour lies in 0..23
and a present day-of-week in 0..6; and the weekday convention anchors
0 to Monday (a 1970-01-05 timestamp) and 6 to Sunday (1970-01-04). -/
theorem c7_hour_dow_invariant :
    (∀ (tz : Int → Int) (agent line : List Char) (r : UsageRecord),
      ParseLine tz agent line = some r →
      ((r.hour = none ↔ r.dow = none) ∧
       (∀ a, r.hour = some a → 0 ≤ a ∧ a ≤ 23) ∧
       (∀ b, r.dow = some b → 0 ≤ b ∧ b ≤ 6)))
    ∧ (ParseLine tzUTC (("alpha").data) scMondayLine).map
        (fun r => (r.hour, r.dow)) = some (some 0, some 0)
    ∧ (ParseLine tzUTC (("alpha").data) scSundayLine).map
        (fun r => (r.hour, r.dow)) = some (some 23, some 6) := by
  refine ⟨?_, by decide, by decide⟩
  intro tz agent line r h
  obtain ⟨ts, h1, h2⟩ := ParseLine_hourDOW tz agent line r h
  rw [h1, h2]
  exact hourDOW_props tz ts

/-- C7 witness: the invariant applied to the concrete Monday record. -/
theorem c7_hour_dow_invariant_witness :
    (rMonday.hour = none ↔ rMonday.dow = none) ∧
    ((0 : Int) ≤ 0 ∧ (0 : Int) ≤ 23) :=
  ⟨(c7_hour_dow_invariant.1 tzUTC (("alpha").data) scMondayLine rMonday
      (by decide)).1,
   (c7_hour_dow_invariant.1 tzUTC (("alpha").data) scMondayLine rMonday
      (by decide)).2.1 0 (by decide)⟩

/-- C6 witness: the monotonicity theorem at a concrete truncation pass,
whose write trace is reset-to-zero followed by the re-read end offset. -/
theorem c6_offset_monotonic_witness :
    List.Chain'
      (fun a b => a ≤ b ∨ (b = 0 ∧ truncationDetected scShrunkDB scFileA2 = true))
      ((storedOffsetOpt scShrunkDB scFileA2.path).toList ++ [0, 23])
    ∧ storedOffsetOpt c6ResultDB scFileA2.path =
        Option.or (List.getLast? [0, 23]) (storedOffsetOpt scShrunkDB scFileA2.path) :=
  c6_offset_monotonic tzUTC scShrunkDB scFileA2 c6ResultDB true 1 [0, 23] (by decide)

/-- With at least one range bound, the date filter rejects the
"unknown" sentinel. -/
theorem dateFilter_unknown_false (s e : List Char) (h : ¬(s = [] ∧ e = [])) :
    dateFilter s e unknownKey = false := by
  unfold dateFilter
  have hc : (decide (s = []) && decide (e = [])) = false := by
    by_cases hs : s = []
    · by_cases he : e = []
      · exact absurd ⟨hs, he⟩ h
      · simp [hs, he]
    · simp [hs]
  simp [hc]

/-- With at least one range bound, pre-deleting the "unknown"-dated rows
does not change the filtered row set. -/
theorem filteredRecords_unknown (s e : List Char) (h : ¬(s = [] ∧ e = []))
    (recs : List DBRec) :
    filteredRecords s e recs =
      filteredRecords s e
        (recs.filter (fun r => decide (¬ r.dateKey = unknownKey))) := by
  unfold filteredRecords
  rw [List.filter_filter]
  apply List.filter_congr
  intro r _
  by_cases hd : r.dateKey = unknownKey
  · rw [hd, dateFilter_unknown_false s e h]
    simp
  · simp [hd]

/-- C2.  Date filtering policy: when either bound is given, the
"unknown"-dated rows are excluded from every range-filtered view — the
summary row set, per-agent totals, per-model totals, the daily series,
and the heatmap (all computed from `filteredRecords`) are unchanged if
those rows are deleted first, and no filtered row carries the sentinel —
for every row set, including ones where no dated row satisfies the
range; with neither bound given, every row is included. -/
theorem c2_date_filtering (s e : List Char) (recs : List DBRec) :
    (¬(s = [] ∧ e = []) →
      ((∀ r ∈ filteredRecords s e recs, r.dateKey ≠ unknownKey) ∧
       filteredRecords s e recs =
         filteredRecords s e
           (recs.filter (fun r => decide (¬ r.dateKey = unknownKey))) ∧
       agentTotals s e recs =
         agentTotals s e (recs.filter (fun r => decide (¬ r.dateKey = unknownKey))) ∧
       modelTotals s e recs =
         modelTotals s e (recs.filter (fun r => decide (¬ r.dateKey = unknownKey))) ∧
       dailyTokens s e recs =
         dailyTokens s e (recs.filter (fun r => decide (¬ r.dateKey = unknownKey))) ∧
       heatmapCells s e recs =
         heatmapCells s e (recs.filter (fun r => decide (¬ r.dateKey = unknownKey)))))
    ∧ (s = [] → e = [] → filteredRecords s e recs = recs) := by
  constructor
  · intro h
    have hm := filteredRecords_unknown s e h recs
    refine ⟨?_, hm, ?_, ?_, ?_, ?_⟩
    · intro r hr
      have hp := List.of_mem_filter hr
      intro hd
      rw [hd, dateFilter_unknown_false s e h] at hp
      exact absurd hp (by simp)
    · unfold agentTotals
      rw [hm]
    · unfold modelTotals
      rw [hm]
    · unfold dailyTokens
      rw [hm]
    · unfold heatmapCells heatmapRows
      rw [hm]
  · intro hs he
    subst hs
    subst he
    unfold filteredRecords
    have : ∀ d : List Char, dateFilter [] [] d = true := by
      intro d
      unfold dateFilter
      simp
    simp [this]

/-- C2 witness: the exclusion equalities at a concrete start bound over a
row set holding one "unknown"-dated row and one dated row that misses
the range. -/
theorem c2_date_filtering_witness :
    agentTotals (("2026-01-01").data) [] c2Recs =
      agentTotals (("2026-01-01").data) []
        (c2Recs.filter (fun r => decide (¬ r.dateKey = unknownKey))) :=
  ((c2_date_filtering (("2026-01-01").data) [] c2Recs).1 (by decide)).2.2.1

/-- Filtering a deduplicated list for one value yields exactly one element
when the value occurred, none otherwise. -/
theorem length_filter_dedup {α : Type} [DecidableEq α] (l : List α) (a : α) :
    ((l.dedup).filter (fun x => x = a)).length = if a ∈ l then 1 else 0 := by
  have h1 : ((l.dedup).filter (fun x => x = a)).length = List.count a l.dedup := by
    rw [List.count_eq_countP, List.countP_eq_length_filter]
    apply congrArg
    apply List.filter_congr
    intro x _
    by_cases h : x = a <;> simp [h]
  rw [h1, List.count_dedup]

/-- Every heatmap row has both optional fields present. -/
theorem mem_heatmapRows_isSome (s e : List Char) (recs : List DBRec)
    (r : DBRec) (hr : r ∈ heatmapRows s e recs) :
    (r.hour.isSome && r.dow.isSome) = true := by
  unfold heatmapRows at hr
  rw [List.mem_filter] at hr
  exact hr.2

/-- On a row with both fields present, the heatmap group key equals a pair
exactly when the fields hold those values. -/
theorem heatmapKey_eq_iff (r : DBRec) (hr : (r.hour.isSome && r.dow.isSome) = true)
    (d h : Int) :
    heatmapKey r = (d, h) ↔ (r.dow = some d ∧ r.hour = some h) := by
  simp only [Bool.and_eq_true, Option.isSome_iff_exists] at hr
  obtain ⟨⟨a, ha⟩, ⟨b, hb⟩⟩ := hr
  simp [heatmapKey, ha, hb, Prod.ext_iff]

/-- C8.  Heatmap sparsity and correctness: for every (dow, hour) pair the
heatmap holds exactly one cell when some matching row (date-filtered,
both fields present) exists and no cell otherwise — zero-record cells
are never emitted — and every cell's token value is the token sum over
exactly its matching rows, of which there is at least one. -/
theorem c8_heatmap_sparsity (s e : List Char) (recs : List DBRec) :
    (∀ d h : Int,
      ((heatmapCells s e recs).filter
        (fun c => c.dow = d ∧ c.hour = h)).length =
      if (heatmapRows s e recs).any
          (fun r => r.dow = some d ∧ r.hour = some h) = true then 1 else 0)
    ∧ (∀ c ∈ heatmapCells s e recs,
        c.tokens = sumTokens ((heatmapRows s e recs).filter
          (fun r => r.dow = some c.dow ∧ r.hour = some c.hour)) ∧
        ((heatmapRows s e recs).filter
          (fun r => r.dow = some c.dow ∧ r.hour = some c.hour)) ≠ []) := by
  constructor
  · intro d h
    unfold heatmapCells
    rw [List.filter_map, List.length_map]
    have hfc :
        List.filter
          ((fun c : HeatmapCell => decide (c.dow = d ∧ c.hour = h)) ∘
            (fun k =>
              HeatmapCell.mk k.1 k.2
                (sumTokens ((heatmapRows s e recs).filter
                  (fun r => heatmapKey r = k)))
                ((sumCost ((heatmapRows s e recs).filter
                  (fun r => heatmapKey r = k))).round6)))
          ((heatmapRows s e recs).map heatmapKey).dedup =
        ((heatmapRows s e recs).map heatmapKey).dedup.filter
          (fun k => k = (d, h)) := by
      apply List.filter_congr
      intro k _
      by_cases hk : k = (d, h)
      · subst hk; simp
      · simp only [Function.comp_apply, decide_eq_decide]
        constructor
        · intro ⟨h1, h2⟩
          exact absurd (Prod.ext_iff.mpr ⟨h1, h2⟩) hk
        · intro hkk; exact absurd hkk hk
    rw [hfc, length_filter_dedup]
    have hiff : ((d, h) ∈ (heatmapRows s e recs).map heatmapKey) ↔
        ((heatmapRows s e recs).any
          (fun r => r.dow = some d ∧ r.hour = some h) = true) := by
      rw [List.mem_map, List.any_eq_true]
      constructor
      · intro ⟨r, hrm, hrk⟩
        exact ⟨r, hrm, by
          simp only [decide_eq_true_eq]
          exact (heatmapKey_eq_iff r
            (mem_heatmapRows_isSome s e recs r hrm) d h).mp hrk⟩
      · intro ⟨r, hrm, hrp⟩
        simp only [decide_eq_true_eq] at hrp
        exact ⟨r, hrm, (heatmapKey_eq_iff r
          (mem_heatmapRows_isSome s e recs r hrm) d h).mpr hrp⟩
    simp only [hiff]
  · intro c hc
    unfold heatmapCells at hc
    obtain ⟨k, hk, hck⟩ := List.mem_map.mp hc
    obtain ⟨r0, hr0m, hr0k⟩ :=
      List.mem_map.mp (List.mem_dedup.mp hk)
    have hr0some := mem_heatmapRows_isSome s e recs r0 hr0m
    subst hck
    dsimp only
    constructor
    · apply congrArg
      apply List.filter_congr
      intro r hr
      have hrs := mem_heatmapRows_isSome s e recs r hr
      simp only [decide_eq_decide]
      exact heatmapKey_eq_iff r hrs k.1 k.2
    · apply List.ne_nil_of_mem (a := r0)
      apply List.mem_filter.mpr
      refine ⟨hr0m, ?_⟩
      simp only [decide_eq_true_eq]
      exact (heatmapKey_eq_iff r0 hr0some k.1 k.2).mp hr0k

/-- C8 witness: the sparsity theorem's per-cell part at the concrete cell
of `c8Recs`. -/
theorem c8_heatmap_sparsity_witness :
    c8Cell.tokens = sumTokens ((heatmapRows [] [] c8Recs).filter
      (fun r => r.dow = some c8Cell.dow ∧ r.hour = some c8Cell.hour)) ∧
    ((heatmapRows [] [] c8Recs).filter
      (fun r => r.dow = some c8Cell.dow ∧ r.hour = some c8Cell.hour)) ≠ [] :=
  (c8_heatmap_sparsity [] [] c8Recs).2 c8Cell (by decide)

/-- The component loop computes the sum of the positive coercions. -/
theorem sumPosToInt_eq (l : List JVal) :
    sumPosToInt l = ((l.map toInt).filter (fun n => decide (0 < n))).sum := by
  have aux : ∀ (l : List JVal) (acc : Int),
      l.foldl (fun acc v => let n := toInt v; if 0 < n then acc + n else acc)
          acc =
        acc + ((l.map toInt).filter (fun n => decide (0 < n))).sum := by
    intro l
    induction l with
    | nil => intro acc; simp
    | cons v rest ih =>
        intro acc
        rw [List.foldl_cons]
        by_cases h : 0 < toInt v
        · simp only [h, if_true, ih, List.map_cons, List.filter_cons,
            decide_eq_true h]
          simp [List.sum_cons]
          omega
        · simp only [h, if_false, ih, List.map_cons, List.filter_cons,
            decide_eq_false h]
          simp
  unfold sumPosToInt
  rw [aux l 0]
  simp

/-- The alias loop finds nothing exactly when every alias coerces to a
non-positive integer. -/
theorem firstPosToInt_eq_none (l : List JVal) :
    firstPosToInt l = none ↔ ∀ v ∈ l, toInt v ≤ 0 := by
  induction l with
  | nil => simp [firstPosToInt]
  | cons v rest ih =>
      unfold firstPosToInt
      by_cases h : 0 < toInt v
      · simp [h]
      · simp only [h, if_false]
        rw [ih]
        constructor
        · intro hall w hw
          rcases List.mem_cons.mp hw with hw | hw
          · subst hw; omega
          · exact hall w hw
        · intro hall w hw
          exact hall w (List.mem_cons_of_mem v hw)

/-- The token gate of `ParseLine`: once the line decodes to a usage, a
non-positive extracted total drops the line and a positive one becomes
the record's token count. -/
theorem ParseLine_token_gate (tz : Int → Int) (agent line : List Char)
    (v : JVal) (rec : RawRecord) (usage : RawUsage)
    (hv : jparse (trimSpace line) = some v)
    (hrec : decodeRawRecord v = some rec)
    (hus : extractUsage rec = some usage) :
    (extractTotalTokens usage ≤ 0 → ParseLine tz agent line = none) ∧
    (0 < extractTotalTokens usage →
      (ParseLine tz agent line).map UsageRecord.tokens =
        some (extractTotalTokens usage)) := by
  have hne : ¬ trimSpace line = [] := by
    intro h0
    rw [h0] at hv
    rw [show jparse [] = none from rfl] at hv
    exact Option.noConfusion hv
  constructor
  · intro hle
    simp only [ParseLine, hne, if_false, hv, hrec, hus, hle, if_true, reduceIte]
  · intro hpos
    have hle : ¬ extractTotalTokens usage ≤ 0 := by omega
    simp only [ParseLine, hne, if_false, hv, hrec, hus, hle, reduceIte,
      Option.map_some]
    rfl

/-- C4 counterexample: on a line whose usage object carries an explicit
total field (value 0) and a component field (value 5), `ParseLine` does
not use the explicit total — it emits a record with the component sum 5,
refuting the claim that the explicit total is used whenever it is
carried. -/
theorem c4_counterexample :
    (((jparse c4Line).bind decodeRawRecord).bind extractUsage).map
      (fun u => (toInt u.totalTokens, u.totalTokens.isNull,
        extractTotalTokens u)) = some (0, false, 5) ∧
    (ParseLine tzUTC (("alpha").data) c4Line).map UsageRecord.tokens =
      some 5 := by
  decide

/-- C4, amended.  Token total precedence as the code implements it: the
record uses the first explicit total alias (`totalTokens`,
`total_tokens`, `total`, `tokens`) whose integer coercion is positive,
regardless of the component fields, even when it disagrees with their
sum; when every explicit alias coerces non-positively (absent, zero,
negative, or unparsable), the total is the sum of the positive component
coercions; and a line whose usage yields a non-positive total produces
no record, while a positive total becomes the record's token count. -/
theorem c4_token_total_amended :
    (∀ (u u2 : RawUsage) (n : Int),
      explicitAliases u2 = explicitAliases u →
      firstPosToInt (explicitAliases u) = some n →
      extractTotalTokens u2 = n)
    ∧ (∀ u : RawUsage, (∀ v ∈ explicitAliases u, toInt v ≤ 0) →
        extractTotalTokens u =
          (((componentFields u).map toInt).filter (fun n => decide (0 < n))).sum)
    ∧ (∀ (tz : Int → Int) (agent line : List Char) (v : JVal)
        (rec : RawRecord) (usage : RawUsage),
        jparse (trimSpace line) = some v →
        decodeRawRecord v = some rec →
        extractUsage rec = some usage →
        ((extractTotalTokens usage ≤ 0 → ParseLine tz agent line = none) ∧
         (0 < extractTotalTokens usage →
           (ParseLine tz agent line).map UsageRecord.tokens =
             some (extractTotalTokens usage)))) := by
  refine ⟨?_, ?_, ?_⟩
  · intro u u2 n he hf
    unfold extractTotalTokens
    rw [he, hf]
  · intro u hall
    unfold extractTotalTokens
    rw [(firstPosToInt_eq_none (explicitAliases u)).mpr hall, sumPosToInt_eq]
  · intro tz agent line v rec usage hv hrec hus
    exact ParseLine_token_gate tz agent line v rec usage hv hrec hus

/-- C4 witness: the amended precedence at a usage whose explicit total
(7) disagrees with its component sum (5). -/
theorem c4_token_total_amended_witness :
    extractTotalTokens c4PrecUsage = 7 :=
  c4_token_total_amended.1 c4PrecUsage c4PrecUsage 7 rfl (by decide)

/-- C10.  The numeric coercion truncates toward zero, never rounds: a
float coerces to its floor when non-negative and its ceiling when
negative (so 10.9 yields 10 and -10.9 yields -10); a numeric string is
parsed as a float and truncated the same way; a boolean yields 1 or 0;
null (also standing for an absent field), arrays, objects and
non-numeric strings yield 0; and the truncation propagates into
component sums (a lone 10.9 input gives a 10-token total). -/
theorem c10_toInt_truncation :
    (∀ d : Dec, 0 ≤ d.toRat → toInt (.num d) = ⌊d.toRat⌋)
    ∧ (∀ d : Dec, d.toRat < 0 → toInt (.num d) = ⌈d.toRat⌉)
    ∧ toInt (.num ⟨109, 1⟩) = 10 ∧ toInt (.num ⟨-109, 1⟩) = -10
    ∧ toInt (.jstr (("10.9").data)) = 10
    ∧ toInt (.jstr (("-10.9").data)) = -10
    ∧ toInt (.jbool true) = 1 ∧ toInt (.jbool false) = 0
    ∧ toInt .null = 0 ∧ toInt (.obj []) = 0 ∧ toInt (.arr []) = 0
    ∧ toInt (.jstr (("abc").data)) = 0
    ∧ extractTotalTokens c10Usage = 10 := by
  have key : ∀ d : Dec, 0 ≤ d.m → d.m.tdiv ((10 : Int) ^ d.e) = ⌊d.toRat⌋ := by
    intro d hd
    have h1 : ((10 : Int) ^ d.e) = ((10 ^ d.e : ℕ) : Int) := by push_cast; ring
    have h2 : ((10 : ℚ) ^ d.e) = ((10 ^ d.e : ℕ) : ℚ) := by push_cast; ring
    unfold Dec.toRat
    rw [h1, h2, Rat.floor_intCast_div_natCast,
      Int.tdiv_eq_ediv hd (by positivity)]
  have toRat_sign : ∀ d : Dec, (0 ≤ d.toRat ↔ 0 ≤ d.m) := by
    intro d
    unfold Dec.toRat
    rw [le_div_iff₀ (by positivity)]
    simp
  refine ⟨?_, ?_, by decide, by decide, by decide, by decide, by decide,
    by decide, by decide, by decide, by decide, by decide, by decide⟩
  · intro d hd
    have hm : 0 ≤ d.m := (toRat_sign d).mp hd
    show d.m.tdiv ((10 : Int) ^ d.e) = ⌊d.toRat⌋
    exact key d hm
  · intro d hd
    have hm : ¬ 0 ≤ d.m := by
      intro hm
      exact absurd ((toRat_sign d).mpr hm) (by linarith)
    have hneg : 0 ≤ -d.m := by omega
    show d.m.tdiv ((10 : Int) ^ d.e) = ⌈d.toRat⌉
    have hnegRat : (Dec.mk (-d.m) d.e).toRat = -d.toRat := by
      unfold Dec.toRat
      push_cast
      ring
    have := key ⟨-d.m, d.e⟩ hneg
    rw [hnegRat] at this
    have htd : d.m.tdiv ((10 : Int) ^ d.e) =
        -((-d.m).tdiv ((10 : Int) ^ d.e)) := by
      rw [Int.neg_tdiv]
      omega
    rw [htd, this]
    rfl

/-- C10 witness: the floor case at the concrete fraction 109/10. -/
theorem c10_toInt_truncation_witness :
    toInt (.num ⟨109, 1⟩) = ⌊(Dec.mk 109 1).toRat⌋ :=
  c10_toInt_truncation.1 ⟨109, 1⟩ (by norm_num [Dec.toRat])

/-- Code point of a digit character. -/
theorem digitChar_toNat (k : Nat) (hk : k < 10) :
    (digitChar k).toNat = 48 + k := by
  unfold digitChar
  interval_cases k <;> decide

/-- Digit characters pass the digit test. -/
theorem isDig_digitChar (k : Nat) (hk : k < 10) :
    isDig (digitChar k) = true := by
  unfold digitChar isDig
  interval_cases k <;> decide

/-- Digit characters decode to their digit. -/
theorem digVal_digitChar (k : Nat) (hk : k < 10) :
    digVal (digitChar k) = k := by
  unfold digitChar digVal
  interval_cases k <;> decide

/-- A digit character is distinct from any character outside the digit
code-point range. -/
theorem digitChar_ne (k : Nat) (hk : k < 10) (c : Char)
    (hc : c.toNat < 48 ∨ 57 < c.toNat) : ¬ digitChar k = c := by
  intro he
  have h1 := digitChar_toNat k hk
  rw [he] at h1
  omega

/-- Digit characters are not Go whitespace. -/
theorem isGoSpace_digitChar (k : Nat) (hk : k < 10) :
    isGoSpace (digitChar k) = false := by
  unfold digitChar isGoSpace
  interval_cases k <;> decide

/-- `pad4` on an in-range year is its four digit characters. -/
theorem pad4_eq (y : Int) (h0 : 0 ≤ y) (h1 : y ≤ 9999) :
    pad4 y = [digitChar (y.toNat / 1000 % 10), digitChar (y.toNat / 100 % 10),
      digitChar (y.toNat / 10 % 10), digitChar (y.toNat % 10)] := by
  unfold pad4
  rw [if_pos ⟨h0, h1⟩]

/-- One digit step of the fixed-width parser. -/
theorem takeFixed_digit (n : Nat) (k : Nat) (hk : k < 10) (cs : List Char) :
    takeFixedDigits (n + 1) (digitChar k :: cs) =
      (takeFixedDigits n cs).map (fun p => (k * 10 ^ n + p.1, p.2)) := by
  cases htk : takeFixedDigits n cs with
  | none =>
      simp [takeFixedDigits, isDig_digitChar k hk, digVal_digitChar k hk, htk]
  | some p =>
      obtain ⟨v, rest⟩ := p
      simp [takeFixedDigits, isDig_digitChar k hk, digVal_digitChar k hk, htk]

/-- The fixed-width parser inverts `pad2` (any two-digit value). -/
theorem takeFixed2_pad2 (n : Int) (h0 : 0 ≤ n) (h1 : n ≤ 99)
    (rest : List Char) :
    takeFixedDigits 2 (pad2 n ++ rest) = some (n.toNat, rest) := by
  unfold pad2
  simp only [List.cons_append, List.nil_append]
  rw [takeFixed_digit 1 _ (Nat.mod_lt _ (by norm_num)),
    takeFixed_digit 0 _ (Nat.mod_lt _ (by norm_num))]
  simp only [takeFixedDigits, Option.map_some, Option.some.injEq,
    Prod.mk.injEq, and_true]
  have h2 : n.toNat ≤ 99 := by omega
  norm_num
  omega

/-- The fixed-width parser inverts `pad4` (any in-range year). -/
theorem takeFixed4_pad4 (y : Int) (h0 : 0 ≤ y) (h1 : y ≤ 9999)
    (rest : List Char) :
    takeFixedDigits 4 (pad4 y ++ rest) = some (y.toNat, rest) := by
  rw [pad4_eq y h0 h1]
  simp only [List.cons_append, List.nil_append]
  rw [takeFixed_digit 3 _ (Nat.mod_lt _ (by norm_num)),
    takeFixed_digit 2 _ (Nat.mod_lt _ (by norm_num)),
    takeFixed_digit 1 _ (Nat.mod_lt _ (by norm_num)),
    takeFixed_digit 0 _ (Nat.mod_lt _ (by norm_num))]
  simp only [takeFixedDigits, Option.map_some, Option.some.injEq,
    Prod.mk.injEq, and_true]
  have h2 : y.toNat ≤ 9999 := by omega
  norm_num
  omega

/-- `replaceFirstZ` passes over a Z-free prefix. -/
theorem replaceFirstZ_append (l1 l2 : List Char) (h : 'Z' ∉ l1) :
    replaceFirstZ (l1 ++ l2) = l1 ++ replaceFirstZ l2 := by
  induction l1 with
  | nil => simp
  | cons c cs ih =>
      have hc : ¬ c = 'Z' := by
        intro he; exact h (by simp [he])
      have hcs : 'Z' ∉ cs := by
        intro hm; exact h (by simp [hm])
      simp only [List.cons_append, replaceFirstZ, if_neg hc]
      rw [show cs.append l2 = cs ++ l2 from rfl, ih hcs]

/-- `pad2` renders no Z. -/
theorem z_not_mem_pad2 (n : Int) : 'Z' ∉ pad2 n := by
  unfold pad2
  intro hm
  rcases List.mem_cons.mp hm with he | hm2
  · exact digitChar_ne _ (Nat.mod_lt _ (by norm_num)) 'Z' (by right; decide) he.symm
  · rcases List.mem_cons.mp hm2 with he | hm3
    · exact digitChar_ne _ (Nat.mod_lt _ (by norm_num)) 'Z' (by right; decide) he.symm
    · exact absurd hm3 (by simp)

/-- `pad4` renders no Z. -/
theorem z_not_mem_pad4 (y : Int) (h0 : 0 ≤ y) (h1 : y ≤ 9999) :
    'Z' ∉ pad4 y := by
  rw [pad4_eq y h0 h1]
  intro hm
  have hne : ∀ k : Nat, k < 10 → ¬ ('Z' = digitChar k) := by
    intro k hk he
    exact digitChar_ne k hk 'Z' (by right; decide) he.symm
  simp only [List.mem_cons, List.not_mem_nil, or_false] at hm
  rcases hm with he | he | he | he <;>
    exact hne _ (Nat.mod_lt _ (by norm_num)) he

/-- A list headed by a non-space is not left-trimmed. -/
theorem dropLeadingSpace_eq_self (l : List Char)
    (h : ∀ c, l.head? = some c → isGoSpace c = false) :
    dropLeadingSpace l = l := by
  cases l with
  | nil => rfl
  | cons c cs =>
      unfold dropLeadingSpace
      simp [h c rfl]

/-- A list with non-space ends is untouched by `trimSpace`. -/
theorem trimSpace_eq_self (l : List Char)
    (hh : ∀ c, l.head? = some c → isGoSpace c = false)
    (hl : ∀ c, l.getLast? = some c → isGoSpace c = false) :
    trimSpace l = l := by
  unfold trimSpace
  rw [dropLeadingSpace_eq_self l.reverse
    (by intro c hc; rw [List.head?_reverse] at hc; exact hl c hc)]
  rw [List.reverse_reverse]
  exact dropLeadingSpace_eq_self l hh

/-- The first digit of `pad4` heads the ISO and bare-date strings. -/
theorem head?_pad4_append (y : Int) (h0 : 0 ≤ y) (h1 : y ≤ 9999)
    (rest : List Char) :
    (pad4 y ++ rest).head? = some (digitChar (y.toNat / 1000 % 10)) := by
  rw [pad4_eq y h0 h1]
  rfl

/-- `trimSpace` leaves the ISO rendering unchanged. -/
theorem trimSpace_mkIso (y : Int) (mo d h mi sec : Nat)
    (h0 : 0 ≤ y) (h1 : y ≤ 9999) :
    trimSpace (mkIso y mo d h mi sec) = mkIso y mo d h mi sec := by
  apply trimSpace_eq_self
  · intro c hc
    unfold mkIso at hc
    simp only [List.append_assoc] at hc
    rw [head?_pad4_append y h0 h1] at hc
    cases hc
    exact isGoSpace_digitChar _ (Nat.mod_lt _ (by norm_num))
  · intro c hc
    unfold mkIso at hc
    rw [List.getLast?_append] at hc
    cases hc
    decide

/-- `trimSpace` leaves the bare-date rendering unchanged. -/
theorem trimSpace_mkBareDate (y : Int) (mo d : Nat)
    (h0 : 0 ≤ y) (h1 : y ≤ 9999) :
    trimSpace (mkBareDate y mo d) = mkBareDate y mo d := by
  apply trimSpace_eq_self
  · intro c hc
    unfold mkBareDate at hc
    simp only [List.append_assoc] at hc
    rw [head?_pad4_append y h0 h1] at hc
    cases hc
    exact isGoSpace_digitChar _ (Nat.mod_lt _ (by norm_num))
  · intro c hc
    unfold mkBareDate pad2 at hc
    rw [List.getLast?_append] at hc
    simp only [List.getLast?_cons_cons, List.getLast?_singleton] at hc
    rw [show ∀ o : Option Char, (some (digitChar ((d : Int).toNat % 10))).or o
        = some (digitChar ((d : Int).toNat % 10)) from fun o => rfl] at hc
    cases hc
    exact isGoSpace_digitChar _ (Nat.mod_lt _ (by norm_num))

/-- `isNumeric` rejects the ISO rendering (it contains a dash). -/
theorem isNumeric_mkIso (y : Int) (mo d h mi sec : Nat)
    (h0 : 0 ≤ y) (h1 : y ≤ 9999) :
    isNumeric (mkIso y mo d h mi sec) = false := by
  unfold isNumeric mkIso
  rw [pad4_eq y h0 h1]
  simp only [List.append_assoc, List.cons_append, List.nil_append,
    List.singleton_append]
  rw [if_neg (digitChar_ne _ (Nat.mod_lt _ (by norm_num)) '-' (by left; decide))]
  simp only [List.all_cons]
  rw [show isDig '-' = false from rfl]
  simp

/-- `isNumeric` rejects the bare-date rendering. -/
theorem isNumeric_mkBareDate (y : Int) (mo d : Nat)
    (h0 : 0 ≤ y) (h1 : y ≤ 9999) :
    isNumeric (mkBareDate y mo d) = false := by
  unfold isNumeric mkBareDate
  rw [pad4_eq y h0 h1]
  simp only [List.append_assoc, List.cons_append, List.nil_append,
    List.singleton_append]
  rw [if_neg (digitChar_ne _ (Nat.mod_lt _ (by norm_num)) '-' (by left; decide))]
  simp only [List.all_cons]
  rw [show isDig '-' = false from rfl]
  simp

/-- A number at most 10^10 is taken as unix seconds. -/
theorem parseTimestampToTime_secs (s : Int) (hhi : s ≤ 10 ^ 10) :
    parseTimestampToTime (.num ⟨s, 0⟩) = s := by
  unfold parseTimestampToTime Dec.gtInt Dec.trunc
  have hgt : ¬ ((10000000000 : Int) < s) := by omega
  simp [hgt, Int.tdiv_one]

/-- A number beyond 10^10 is divided down from milliseconds. -/
theorem parseTimestampToTime_ms (s : Int) (hlo : 10 ^ 7 < s) :
    parseTimestampToTime (.num ⟨1000 * s, 0⟩) = s := by
  unfold parseTimestampToTime Dec.gtInt Dec.div1000 Dec.trunc
  have hgt : (10000000000 : Int) < 1000 * s := by omega
  simp [hgt]

/-- The zone parser on the canonical `+00:00` suffix. -/
theorem parseZone_plus00 :
    parseZone ('+' :: '0' :: '0' :: ':' :: '0' :: '0' :: []) = some (0, []) := by
  rfl

/-- Month lengths never exceed 31. -/
theorem daysInMonth_le_31 (y : Int) (mo : Nat) : daysInMonth y mo ≤ 31 := by
  unfold daysInMonth
  split
  · split <;> norm_num
  · split <;> norm_num

/-- A literal layout character consumes itself. -/
theorem expectChar_cons_self (c : Char) (r : List Char) :
    expectChar c (c :: r) = some r := by
  simp [expectChar]

/-- No fraction follows the canonical zone suffix. -/
theorem skipFraction_plus (r : List Char) :
    skipFraction ('+' :: r) = '+' :: r := rfl

/-- The RFC 3339 parser inverts the canonical rendering (already
Z-replaced) of a valid civil instant. -/
theorem parseRFC3339_canonical (y : Int) (mo d h mi sec : Nat)
    (h0 : 0 ≤ y) (h1 : y ≤ 9999) (hmo1 : 1 ≤ mo) (hmo2 : mo ≤ 12)
    (hd1 : 1 ≤ d) (hd2 : d ≤ daysInMonth y mo)
    (hh : h ≤ 23) (hmi : mi ≤ 59) (hs : sec ≤ 59) :
    parseRFC3339 (pad4 y ++ ['-'] ++ pad2 (mo : Int) ++ ['-'] ++
      pad2 (d : Int) ++ ['T'] ++ pad2 (h : Int) ++ [':'] ++
      pad2 (mi : Int) ++ [':'] ++ pad2 (sec : Int) ++
      ('+' :: '0' :: '0' :: ':' :: '0' :: '0' :: [])) =
    some (epochOfCivil y mo d h mi sec) := by
  have harg : pad4 y ++ ['-'] ++ pad2 (mo : Int) ++ ['-'] ++
      pad2 (d : Int) ++ ['T'] ++ pad2 (h : Int) ++ [':'] ++
      pad2 (mi : Int) ++ [':'] ++ pad2 (sec : Int) ++
      ('+' :: '0' :: '0' :: ':' :: '0' :: '0' :: []) =
      pad4 y ++ ('-' :: (pad2 (mo : Int) ++ ('-' :: (pad2 (d : Int) ++
        ('T' :: (pad2 (h : Int) ++ (':' :: (pad2 (mi : Int) ++
          (':' :: (pad2 (sec : Int) ++
            ('+' :: '0' :: '0' :: ':' :: '0' :: '0' :: []))))))))))) := by
    simp [List.append_assoc, List.singleton_append, List.cons_append]
  rw [harg]
  unfold parseRFC3339
  rw [takeFixed4_pad4 y h0 h1]
  simp only [Option.bind_eq_bind, Option.some_bind]
  rw [expectChar_cons_self]
  simp only [Option.some_bind]
  rw [takeFixed2_pad2 (mo : Int) (by omega) (by omega)]
  simp only [Option.some_bind]
  rw [expectChar_cons_self]
  simp only [Option.some_bind]
  rw [takeFixed2_pad2 (d : Int) (by omega)
    (by have := daysInMonth_le_31 y mo; omega)]
  simp only [Option.some_bind]
  rw [expectChar_cons_self]
  simp only [Option.some_bind]
  rw [takeFixed2_pad2 (h : Int) (by omega) (by omega)]
  simp only [Option.some_bind]
  rw [expectChar_cons_self]
  simp only [Option.some_bind]
  rw [takeFixed2_pad2 (mi : Int) (by omega) (by omega)]
  simp only [Option.some_bind]
  rw [expectChar_cons_self]
  simp only [Option.some_bind]
  rw [takeFixed2_pad2 (sec : Int) (by omega) (by omega)]
  simp only [Option.some_bind]
  rw [skipFraction_plus, parseZone_plus00]
  simp only [Option.some_bind, Int.toNat_natCast]
  rw [if_pos (by
    refine ⟨by trivial, hmo1, hmo2, hd1, ?_, hh, hmi, hs⟩
    rw [Int.toNat_of_nonneg h0]
    exact hd2)]
  rw [Int.toNat_of_nonneg h0]
  unfold epochOfCivil
  norm_num

/-- The ISO rendering resolves to its civil instant's epoch seconds. -/
theorem parseTimestampToTime_mkIso (y : Int) (mo d h mi sec : Nat)
    (h0 : 0 ≤ y) (h1 : y ≤ 9999) (hmo1 : 1 ≤ mo) (hmo2 : mo ≤ 12)
    (hd1 : 1 ≤ d) (hd2 : d ≤ daysInMonth y mo)
    (hh : h ≤ 23) (hmi : mi ≤ 59) (hs : sec ≤ 59) :
    parseTimestampToTime (.jstr (mkIso y mo d h mi sec)) =
      epochOfCivil y mo d h mi sec := by
  have hne : ¬ (mkIso y mo d h mi sec = []) := by
    unfold mkIso
    simp
  have hnoz : 'Z' ∉ pad4 y ++ ['-'] ++ pad2 (mo : Int) ++ ['-'] ++
      pad2 (d : Int) ++ ['T'] ++ pad2 (h : Int) ++ [':'] ++
      pad2 (mi : Int) ++ [':'] ++ pad2 (sec : Int) := by
    intro hm
    simp only [List.mem_append, List.mem_singleton, List.mem_cons,
      List.not_mem_nil, or_false] at hm
    rcases hm with ((((((((((hm | hm) | hm) | hm) | hm) | hm) | hm) | hm)
      | hm) | hm) | hm)
    · exact z_not_mem_pad4 y h0 h1 hm
    · exact absurd hm (by decide)
    · exact z_not_mem_pad2 _ hm
    · exact absurd hm (by decide)
    · exact z_not_mem_pad2 _ hm
    · exact absurd hm (by decide)
    · exact z_not_mem_pad2 _ hm
    · exact absurd hm (by decide)
    · exact z_not_mem_pad2 _ hm
    · exact absurd hm (by decide)
    · exact z_not_mem_pad2 _ hm
  have hrz : replaceFirstZ (mkIso y mo d h mi sec) =
      pad4 y ++ ['-'] ++ pad2 (mo : Int) ++ ['-'] ++ pad2 (d : Int) ++
      ['T'] ++ pad2 (h : Int) ++ [':'] ++ pad2 (mi : Int) ++ [':'] ++
      pad2 (sec : Int) ++ ('+' :: '0' :: '0' :: ':' :: '0' :: '0' :: []) := by
    unfold mkIso
    rw [replaceFirstZ_append _ ['Z'] hnoz]
    rfl
  show parseTimestampFromChars (mkIso y mo d h mi sec) =
    epochOfCivil y mo d h mi sec
  unfold parseTimestampFromChars
  rw [trimSpace_mkIso y mo d h mi sec h0 h1, if_neg hne,
    if_neg (show ¬ isNumeric (mkIso y mo d h mi sec) = true by
      rw [isNumeric_mkIso y mo d h mi sec h0 h1]
      exact Bool.false_ne_true),
    hrz, parseRFC3339_canonical y mo d h mi sec h0 h1 hmo1 hmo2 hd1 hd2
      hh hmi hs]

/-- The bare-date rendering as an explicit ten-character list. -/
theorem mkBareDate_expand (y : Int) (mo d : Nat)
    (h0 : 0 ≤ y) (h1 : y ≤ 9999) :
    mkBareDate y mo d =
      [digitChar (y.toNat / 1000 % 10), digitChar (y.toNat / 100 % 10),
       digitChar (y.toNat / 10 % 10), digitChar (y.toNat % 10), '-',
       digitChar ((mo : Int).toNat / 10 % 10), digitChar ((mo : Int).toNat % 10),
       '-', digitChar ((d : Int).toNat / 10 % 10),
       digitChar ((d : Int).toNat % 10)] := by
  unfold mkBareDate pad2
  rw [pad4_eq y h0 h1]
  simp

/-- `replaceFirstZ` is the identity on Z-free strings. -/
theorem replaceFirstZ_eq_self (l : List Char) (h : 'Z' ∉ l) :
    replaceFirstZ l = l := by
  induction l with
  | nil => rfl
  | cons c cs ih =>
      have hc : ¬ c = 'Z' := by
        intro he; exact h (by simp [he])
      have hcs : 'Z' ∉ cs := by
        intro hm; exact h (by simp [hm])
      simp only [replaceFirstZ, if_neg hc, ih hcs]

/-- The bare-date rendering carries no Z. -/
theorem z_not_mem_mkBareDate (y : Int) (mo d : Nat)
    (h0 : 0 ≤ y) (h1 : y ≤ 9999) :
    'Z' ∉ mkBareDate y mo d := by
  rw [mkBareDate_expand y mo d h0 h1]
  intro hm
  have hne : ∀ k : Nat, k < 10 → ¬ ('Z' = digitChar k) := by
    intro k hk he
    exact digitChar_ne k hk 'Z' (by right; decide) he.symm
  simp only [List.mem_cons, List.not_mem_nil, or_false] at hm
  rcases hm with he | he | he | he | he | he | he | he | he | he <;>
    first
      | exact hne _ (Nat.mod_lt _ (by norm_num)) he
      | exact absurd he (by decide)

/-- The RFC 3339 parser rejects a bare date (no time part follows). -/
theorem parseRFC3339_mkBareDate (y : Int) (mo d : Nat)
    (h0 : 0 ≤ y) (h1 : y ≤ 9999) (hmo1 : 1 ≤ mo) (hmo2 : mo ≤ 12)
    (hd1 : 1 ≤ d) (hd2 : d ≤ daysInMonth y mo) :
    parseRFC3339 (mkBareDate y mo d) = none := by
  have harg : mkBareDate y mo d =
      pad4 y ++ ('-' :: (pad2 (mo : Int) ++ ('-' :: pad2 (d : Int)))) := by
    simp [mkBareDate, List.append_assoc]
  have htd : takeFixedDigits 2 (pad2 (d : Int)) = some ((d : Int).toNat, []) := by
    have h31 := daysInMonth_le_31 y mo
    have := takeFixed2_pad2 (d : Int) (by omega) (by omega) []
    rwa [List.append_nil] at this
  rw [harg]
  unfold parseRFC3339
  rw [takeFixed4_pad4 y h0 h1]
  simp only [Option.bind_eq_bind, Option.some_bind]
  rw [expectChar_cons_self]
  simp only [Option.some_bind]
  rw [takeFixed2_pad2 (mo : Int) (by omega) (by omega)]
  simp only [Option.some_bind]
  rw [expectChar_cons_self]
  simp only [Option.some_bind]
  rw [htd]
  simp only [Option.some_bind]
  rw [show expectChar 'T' [] = none from rfl]
  simp

/-- The bare-date parser inverts the bare rendering. -/
theorem parseBareDate_mkBareDate (y : Int) (mo d : Nat)
    (h0 : 0 ≤ y) (h1 : y ≤ 9999) (hmo1 : 1 ≤ mo) (hmo2 : mo ≤ 12)
    (hd1 : 1 ≤ d) (hd2 : d ≤ daysInMonth y mo) :
    parseBareDate (mkBareDate y mo d) =
      some (daysFromCivil y mo d * 86400) := by
  have harg : mkBareDate y mo d =
      pad4 y ++ ('-' :: (pad2 (mo : Int) ++ ('-' :: pad2 (d : Int)))) := by
    simp [mkBareDate, List.append_assoc]
  have htd : takeFixedDigits 2 (pad2 (d : Int)) = some ((d : Int).toNat, []) := by
    have h31 := daysInMonth_le_31 y mo
    have := takeFixed2_pad2 (d : Int) (by omega) (by omega) []
    rwa [List.append_nil] at this
  rw [harg]
  unfold parseBareDate
  rw [takeFixed4_pad4 y h0 h1]
  simp only [Option.bind_eq_bind, Option.some_bind]
  rw [expectChar_cons_self]
  simp only [Option.some_bind]
  rw [takeFixed2_pad2 (mo : Int) (by omega) (by omega)]
  simp only [Option.some_bind]
  rw [expectChar_cons_self]
  simp only [Option.some_bind]
  rw [htd]
  simp only [Option.some_bind, Int.toNat_natCast]
  rw [if_pos (by
    refine ⟨by trivial, hmo1, hmo2, hd1, ?_⟩
    rw [Int.toNat_of_nonneg h0]
    exact hd2)]
  rw [Int.toNat_of_nonneg h0]

/-- The bare-date rendering resolves to midnight UTC of its date. -/
theorem parseTimestampToTime_mkBareDate (y : Int) (mo d : Nat)
    (h0 : 0 ≤ y) (h1 : y ≤ 9999) (hmo1 : 1 ≤ mo) (hmo2 : mo ≤ 12)
    (hd1 : 1 ≤ d) (hd2 : d ≤ daysInMonth y mo) :
    parseTimestampToTime (.jstr (mkBareDate y mo d)) =
      daysFromCivil y mo d * 86400 := by
  have hexp := mkBareDate_expand y mo d h0 h1
  have hne : ¬ (mkBareDate y mo d = []) := by
    rw [hexp]
    simp
  have hrz := replaceFirstZ_eq_self (mkBareDate y mo d)
    (z_not_mem_mkBareDate y mo d h0 h1)
  have hlen : 10 ≤ (mkBareDate y mo d).length := by
    rw [hexp]
    simp
  have hget4 : (mkBareDate y mo d).getD 4 ' ' = '-' := by
    rw [hexp]
    rfl
  have hget7 : (mkBareDate y mo d).getD 7 ' ' = '-' := by
    rw [hexp]
    rfl
  have htake : (mkBareDate y mo d).take 10 = mkBareDate y mo d := by
    rw [hexp]
    rfl
  show parseTimestampFromChars (mkBareDate y mo d) =
    daysFromCivil y mo d * 86400
  unfold parseTimestampFromChars
  rw [trimSpace_mkBareDate y mo d h0 h1, if_neg hne,
    if_neg (show ¬ isNumeric (mkBareDate y mo d) = true by
      rw [isNumeric_mkBareDate y mo d h0 h1]
      exact Bool.false_ne_true),
    hrz, parseRFC3339_mkBareDate y mo d h0 h1 hmo1 hmo2 hd1 hd2,
    if_pos hlen, if_pos ⟨hget4, hget7⟩, htake,
    parseBareDate_mkBareDate y mo d h0 h1 hmo1 hmo2 hd1 hd2]

/-- C5 counterexample: the instant 1970-01-02T00:00:00Z written as unix
seconds (86400) yields date key 1970-01-02, but the same instant written
in milliseconds (86400000) does not exceed the 10-billion threshold, is
misread as seconds, and yields 1972-09-27 — so the four forms do not
normalize identically for every instant. -/
theorem c5_counterexample :
    (ParseLine tzUTC (("alpha").data) c5SecLine).map UsageRecord.dateKey =
      some (("1970-01-02").data) ∧
    (ParseLine tzUTC (("alpha").data) c5MsLine).map UsageRecord.dateKey =
      some (("1972-09-27").data) ∧
    ¬ (ParseLine tzUTC (("alpha").data) c5SecLine).map UsageRecord.dateKey =
      (ParseLine tzUTC (("alpha").data) c5MsLine).map UsageRecord.dateKey := by
  decide

/-- C5, amended.  Timestamp normalization holds on the window the code
supports: for every civil instant whose epoch seconds s satisfy
10^7 < s ≤ 10^10 (1970-04-26 through 2286), the unix-seconds number,
the milliseconds number, and the ISO-8601 "Z"-suffixed string produce
the identical date key under any local zone, and for midnight instants
the bare `YYYY-MM-DD` form agrees as well.  Outside that window the
magnitude heuristics misclassify one of the numeric forms. -/
theorem c5_timestamp_normalization (tz : Int → Int) (y : Int)
    (mo d h mi sec : Nat)
    (hy0 : 1970 ≤ y) (hy1 : y ≤ 9999)
    (hmo1 : 1 ≤ mo) (hmo2 : mo ≤ 12) (hd1 : 1 ≤ d)
    (hd2 : d ≤ daysInMonth y mo)
    (hh : h ≤ 23) (hmi : mi ≤ 59) (hs : sec ≤ 59)
    (hlo : 10 ^ 7 < epochOfCivil y mo d h mi sec)
    (hhi : epochOfCivil y mo d h mi sec ≤ 10 ^ 10) :
    parseTimestampToDate tz (.num ⟨1000 * epochOfCivil y mo d h mi sec, 0⟩) =
      parseTimestampToDate tz (.num ⟨epochOfCivil y mo d h mi sec, 0⟩)
    ∧ parseTimestampToDate tz (.jstr (mkIso y mo d h mi sec)) =
      parseTimestampToDate tz (.num ⟨epochOfCivil y mo d h mi sec, 0⟩)
    ∧ (h = 0 → mi = 0 → sec = 0 →
        parseTimestampToDate tz (.jstr (mkBareDate y mo d)) =
          parseTimestampToDate tz
            (.num ⟨epochOfCivil y mo d h mi sec, 0⟩)) := by
  have h0 : 0 ≤ y := by omega
  have eA := parseTimestampToTime_secs (epochOfCivil y mo d h mi sec) hhi
  have eB := parseTimestampToTime_ms (epochOfCivil y mo d h mi sec) hlo
  have eC := parseTimestampToTime_mkIso y mo d h mi sec h0 hy1 hmo1 hmo2
    hd1 hd2 hh hmi hs
  refine ⟨?_, ?_, ?_⟩
  · unfold parseTimestampToDate
    rw [eA, eB]
  · unfold parseTimestampToDate
    rw [eA, eC]
  · intro hh0 hmi0 hs0
    subst hh0
    subst hmi0
    subst hs0
    have eD := parseTimestampToTime_mkBareDate y mo d h0 hy1 hmo1 hmo2 hd1 hd2
    have he : epochOfCivil y mo d 0 0 0 = daysFromCivil y mo d * 86400 := by
      unfold epochOfCivil
      norm_num
    unfold parseTimestampToDate
    rw [eD, eA, he]

/-- C5 witness: the amended normalization at the concrete midnight
instant 2026-02-17T00:00:00Z. -/
theorem c5_timestamp_normalization_witness :
    parseTimestampToDate tzUTC (.num ⟨1000 * epochOfCivil 2026 2 17 0 0 0, 0⟩) =
      parseTimestampToDate tzUTC (.num ⟨epochOfCivil 2026 2 17 0 0 0, 0⟩)
    ∧ parseTimestampToDate tzUTC (.jstr (mkIso 2026 2 17 0 0 0)) =
      parseTimestampToDate tzUTC (.num ⟨epochOfCivil 2026 2 17 0 0 0, 0⟩)
    ∧ ((0 : Nat) = 0 → (0 : Nat) = 0 → (0 : Nat) = 0 →
        parseTimestampToDate tzUTC (.jstr (mkBareDate 2026 2 17)) =
          parseTimestampToDate tzUTC
            (.num ⟨epochOfCivil 2026 2 17 0 0 0, 0⟩)) :=
  c5_timestamp_normalization tzUTC 2026 2 17 0 0 0 (by norm_num) (by norm_num)
    (by norm_num) (by norm_num) (by norm_num) (by decide) (by norm_num)
    (by norm_num) (by norm_num) (by decide) (by decide)

/-- Byte length of a cons. -/
theorem utf8Len_cons (c : Char) (cs : List Char) :
    utf8Len (c :: cs) = c.utf8Size + utf8Len cs := by
  simp [utf8Len]

/-- A nonempty byte string has positive byte length. -/
theorem utf8Len_pos (l : List Char) (h : l ≠ []) : 0 < utf8Len l := by
  cases l with
  | nil => exact absurd rfl h
  | cons c cs =>
      rw [utf8Len_cons]
      have := Char.utf8Size_pos c
      omega

/-- On ASCII content, byte length is character count. -/
theorem utf8Len_ascii (l : List Char) (h : ∀ c ∈ l, c.utf8Size = 1) :
    utf8Len l = l.length := by
  induction l with
  | nil => rfl
  | cons c cs ih =>
      rw [utf8Len_cons, h c (List.mem_cons_self c cs), List.length_cons,
        ih (fun x hx => h x (List.mem_cons_of_mem c hx))]
      omega

/-- Seeking zero bytes is the identity. -/
theorem dropBytes_zero (l : List Char) : dropBytes 0 l = l := by
  cases l with
  | nil => rfl
  | cons c cs => simp [dropBytes]

/-- The integer zero converts to the natural zero. -/
theorem int_toNat_zero : (0 : Int).toNat = 0 := rfl

/-- On ASCII content, a byte seek is a character drop. -/
theorem dropBytes_ascii (l : List Char) (h : ∀ c ∈ l, c.utf8Size = 1) :
    ∀ n, dropBytes n l = l.drop n := by
  induction l with
  | nil => intro n; simp [dropBytes]
  | cons c cs ih =>
      intro n
      cases n with
      | zero => simp [dropBytes]
      | succ m =>
          rw [show dropBytes (m + 1) (c :: cs)
              = dropBytes (m + 1 - c.utf8Size) cs from by simp [dropBytes],
            h c (List.mem_cons_self c cs), List.drop_succ_cons]
          have := ih (fun x hx => h x (List.mem_cons_of_mem c hx)) m
          simpa using this

/-- `splitNl` always yields at least one part. -/
theorem splitNl_ne_nil (l : List Char) : splitNl l ≠ [] := by
  induction l with
  | nil => simp [splitNl]
  | cons c cs ih =>
      cases h : splitNl cs with
      | nil => exact absurd h ih
      | cons p t =>
          simp only [splitNl, h]
          by_cases hc : c = '\n' <;> simp [hc]

/-- Byte accounting of `splitNl`: part bytes plus part count equal total
bytes plus one (each separator byte becomes a part boundary). -/
theorem splitNl_sum (l : List Char) :
    ((splitNl l).map utf8Len).sum + (splitNl l).length = utf8Len l + 1 := by
  induction l with
  | nil => simp [splitNl, utf8Len]
  | cons c cs ih =>
      cases h : splitNl cs with
      | nil => exact absurd h (splitNl_ne_nil cs)
      | cons p t =>
          rw [h] at ih
          simp only [splitNl, h]
          have h0 : utf8Len ([] : List Char) = 0 := rfl
          have h1 : ('\n').utf8Size = 1 := by decide
          by_cases hc : c = '\n'
          · subst hc
            rw [if_pos rfl]
            simp only [List.map_cons, List.sum_cons,
              List.length_cons, utf8Len_cons, h0, h1] at ih ⊢
            omega
          · simp only [if_neg hc, List.map_cons, List.sum_cons,
              List.length_cons, utf8Len_cons] at ih ⊢
            omega

/-- Parts of `splitNl` contain no carriage return when the input has
none. -/
theorem splitNl_no_cr (l : List Char) (h : ¬ '\r' ∈ l) :
    ∀ p ∈ splitNl l, ¬ '\r' ∈ p := by
  induction l with
  | nil =>
      intro p hp
      simp only [splitNl, List.mem_singleton] at hp
      subst hp
      simp
  | cons c cs ih =>
      have hcs : ¬ '\r' ∈ cs := fun hx => h (List.mem_cons_of_mem c hx)
      have hc : ¬ c = '\r' := fun hx =>
        h (by rw [← hx]; exact List.mem_cons_self c cs)
      cases hsp : splitNl cs with
      | nil => exact absurd hsp (splitNl_ne_nil cs)
      | cons q t =>
          intro p hp
          simp only [splitNl, hsp] at hp
          by_cases hcn : c = '\n'
          · rw [if_pos hcn] at hp
            rcases List.mem_cons.mp hp with h1 | h2
            · subst h1; simp
            · exact ih hcs p (by rw [hsp]; exact h2)
          · rw [if_neg hcn] at hp
            rcases List.mem_cons.mp hp with h1 | h2
            · subst h1
              intro hmem
              rcases List.mem_cons.mp hmem with h3 | h4
              · exact hc h3.symm
              · exact ih hcs q (by rw [hsp]; exact List.mem_cons_self q t) h4
            · exact ih hcs p (by rw [hsp]; exact List.mem_cons_of_mem q h2)

/-- `dropCR` is the identity on a line without carriage returns. -/
theorem dropCR_of_no_cr (l : List Char) (h : ¬ '\r' ∈ l) : dropCR l = l := by
  unfold dropCR
  split
  · rename_i r heq
    exact absurd (List.mem_reverse.mp
      (by rw [heq]; exact List.mem_cons_self _ _)) h
  · rfl

/-- On CR-free content whose final line is unterminated, the scanner
tokens are exactly the newline-split parts. -/
theorem scanLines_eq_splitNl (content : List Char)
    (hne : content ≠ [])
    (hlast : ¬ content.getLast? = some '\n')
    (hcr : ¬ '\r' ∈ content) :
    scanLines content = splitNl content := by
  simp only [scanLines, if_neg hne, if_neg hlast]
  have hid : ∀ p ∈ splitNl content, dropCR p = p :=
    fun p hp => dropCR_of_no_cr p (splitNl_no_cr content hcr p hp)
  rw [List.map_congr_left hid]
  simp

/-- Each part of `splitNl` is at most the whole input in bytes. -/
theorem splitNl_le (l : List Char) (p : List Char) (hp : p ∈ splitNl l) :
    utf8Len p ≤ utf8Len l := by
  have hs := splitNl_sum l
  have h1 : utf8Len p ≤ ((splitNl l).map utf8Len).sum :=
    List.single_le_sum (fun x _ => Nat.zero_le x) _
      (List.mem_map_of_mem utf8Len hp)
  have h2 : 0 < (splitNl l).length :=
    List.length_pos.mpr (splitNl_ne_nil l)
  omega

/-- Integer byte accounting of a scanned-line list. -/
theorem lines_int_sum (lines : List (List Char)) :
    (lines.map (fun l => (utf8Len l : Int) + 1)).sum
      = ((lines.map utf8Len).sum : Int) + lines.length := by
  induction lines with
  | nil => simp
  | cons l rest ih =>
      simp only [List.map_cons, List.sum_cons, List.length_cons, ih]
      push_cast
      ring

/-- Scanning a whole CR-free file with an unterminated final line: the
per-line byte lengths plus one separator byte each sum to the file size
plus one, and every line fits inside the file. -/
theorem scan_whole_sum (content : List Char)
    (hcr : ¬ '\r' ∈ content)
    (hlast : ¬ content.getLast? = some '\n')
    (hne : content ≠ []) :
    ((scanLines content).map (fun l => (utf8Len l : Int) + 1)).sum
      = (utf8Len content : Int) + 1
    ∧ ∀ l ∈ scanLines content, utf8Len l ≤ utf8Len content := by
  rw [scanLines_eq_splitNl content hne hlast hcr]
  refine ⟨?_, fun l hl => splitNl_le content l hl⟩
  rw [lines_int_sum]
  have := splitNl_sum content
  omega

/-- The last element survives an append with a nonempty right part. -/
theorem getLast?_append_right (l1 l2 : List Char) (h : l2 ≠ []) :
    (l1 ++ l2).getLast? = l2.getLast? := by
  induction l1 with
  | nil => rfl
  | cons c t ih =>
      rw [List.cons_append]
      cases ht : t ++ l2 with
      | nil =>
          rcases List.append_eq_nil.mp ht with ⟨-, h2⟩
          exact absurd h2 h
      | cons x xs =>
          rw [List.getLast?_cons_cons, ← ht, ih]

/-- Scanning the tail of a CR-free ASCII file with an unterminated final
line, from a byte offset inside the file: the summed line lengths plus
separators reach one byte past the end of the file, and every scanned
line fits inside the file. -/
theorem scan_tail_sum (content : List Char) (o : Int)
    (hascii : ∀ c ∈ content, c.utf8Size = 1)
    (hcr : ¬ '\r' ∈ content)
    (hlast : ¬ content.getLast? = some '\n')
    (h0 : 0 ≤ o) (hlt : o < (utf8Len content : Int)) :
    ((scanLines (dropBytes o.toNat content)).map
        (fun l => (utf8Len l : Int) + 1)).sum
      = (utf8Len content : Int) + 1 - o
    ∧ ∀ l ∈ scanLines (dropBytes o.toNat content),
        utf8Len l ≤ utf8Len content := by
  have hlenc : utf8Len content = content.length := utf8Len_ascii content hascii
  have hlt' : o.toNat < content.length := by omega
  rw [dropBytes_ascii content hascii o.toNat]
  have htsub : ∀ c ∈ content.drop o.toNat, c ∈ content :=
    fun c hc => List.drop_subset _ _ hc
  have hta : ∀ c ∈ content.drop o.toNat, c.utf8Size = 1 :=
    fun c hc => hascii c (htsub c hc)
  have htl : utf8Len (content.drop o.toNat) = content.length - o.toNat := by
    rw [utf8Len_ascii _ hta, List.length_drop]
  have htne : content.drop o.toNat ≠ [] := by
    intro hx
    have h1 : utf8Len (content.drop o.toNat) = 0 := by rw [hx]; rfl
    omega
  have htcr : ¬ '\r' ∈ content.drop o.toNat := fun hx => hcr (htsub _ hx)
  have htlast : ¬ (content.drop o.toNat).getLast? = some '\n' := by
    have hsp : content.take o.toNat ++ content.drop o.toNat = content :=
      List.take_append_drop _ _
    have heq : (content.drop o.toNat).getLast? = content.getLast? := by
      conv_rhs => rw [← hsp]
      rw [getLast?_append_right _ _ htne]
    rw [heq]
    exact hlast
  refine ⟨?_, ?_⟩
  · rw [scanLines_eq_splitNl _ htne htlast htcr, lines_int_sum]
    have := splitNl_sum (content.drop o.toNat)
    omega
  · rw [scanLines_eq_splitNl _ htne htlast htcr]
    intro l hl
    have h1 := splitNl_le (content.drop o.toNat) l hl
    omega

/-- The final offset a successful scan returns is the start plus the byte
lengths of all lines plus one separator byte per line. -/
theorem syncLines_offset_eq (tz : Int → Int) (agent path : List Char) :
    ∀ (lines : List (List Char)) (recs : List DBRec) (off : Int) (cnt : Nat)
      (recs2 : List DBRec) (off2 : Int) (cnt2 : Nat),
    syncLines tz agent path lines recs off cnt = some (recs2, off2, cnt2) →
    off2 = off + (lines.map (fun l => (utf8Len l : Int) + 1)).sum := by
  intro lines
  induction lines with
  | nil =>
      intro recs off cnt recs2 off2 cnt2 h
      simp only [syncLines, Option.some.injEq, Prod.mk.injEq] at h
      obtain ⟨-, h2, -⟩ := h
      subst h2
      simp
  | cons line rest ih =>
      intro recs off cnt recs2 off2 cnt2 h
      simp only [syncLines] at h
      split at h
      · exact absurd h (by simp)
      · simp only [List.map_cons, List.sum_cons]
        split at h
        · have := ih _ _ _ _ _ _ h
          omega
        · split at h
          · exact absurd h (by simp)
          · have := ih _ _ _ _ _ _ h
            omega

/-- When the pre-existing rows for this file all lie strictly below the
start offset and every line fits the scanner buffer, the scan succeeds
and appends exactly the freshly parsed rows. -/
theorem syncLines_fresh (tz : Int → Int) (agent path : List Char) :
    ∀ (lines : List (List Char)) (recs : List DBRec) (off : Int) (cnt : Nat),
    (∀ q ∈ recs, q.sourceFile = path → q.sourceOffset < off) →
    (∀ l ∈ lines, utf8Len l ≤ maxLineLen) →
    syncLines tz agent path lines recs off cnt =
      some (recs ++ parseNewLines tz agent path lines off,
        off + (lines.map (fun l => (utf8Len l : Int) + 1)).sum,
        cnt + (parseNewLines tz agent path lines off).length) := by
  intro lines
  induction lines with
  | nil =>
      intro recs off cnt hinv hlen
      simp [syncLines, parseNewLines]
  | cons line rest ih =>
      intro recs off cnt hinv hlen
      have hl : utf8Len line ≤ maxLineLen := hlen line (List.mem_cons_self _ _)
      have hlr : ∀ l ∈ rest, utf8Len l ≤ maxLineLen :=
        fun l hx => hlen l (List.mem_cons_of_mem _ hx)
      have hpos : (0 : Int) ≤ (utf8Len line : Int) := Int.natCast_nonneg _
      simp only [syncLines, parseNewLines]
      rw [if_neg (by omega)]
      cases hp : ParseLine tz agent line with
      | none =>
          rw [ih recs (off + (utf8Len line : Int) + 1) cnt
            (fun q hq hqf => by have := hinv q hq hqf; omega) hlr]
          simp only [Option.some.injEq, Prod.mk.injEq, List.map_cons,
            List.sum_cons]
          exact ⟨trivial, by omega, trivial⟩
      | some u =>
          have hso : (mkDBRec u path off).sourceOffset = off := rfl
          have hsf : (mkDBRec u path off).sourceFile = path := rfl
          have hins : insertRecord recs (mkDBRec u path off)
              = some (recs ++ [mkDBRec u path off]) := by
            unfold insertRecord
            rw [if_neg ?hc]
            case hc =>
              intro hany
              rw [List.any_eq_true] at hany
              obtain ⟨q, hq, hqd⟩ := hany
              have hqp := of_decide_eq_true hqd
              have hq1 : q.sourceFile = path := by rw [hqp.1, hsf]
              have hq2 : q.sourceOffset = off := by rw [hqp.2, hso]
              have := hinv q hq hq1
              omega
          simp only [hins]
          rw [ih (recs ++ [mkDBRec u path off])
            (off + (utf8Len line : Int) + 1) (cnt + 1)
            (fun q hq hqf => by
              rcases List.mem_append.mp hq with h1 | h2
              · have := hinv q h1 hqf; omega
              · have hq3 : q = mkDBRec u path off := by simpa using h2
                subst hq3
                rw [hso]
                omega) hlr]
          simp only [Option.some.injEq, Prod.mk.injEq, List.map_cons,
            List.sum_cons, List.append_assoc, List.singleton_append,
            List.length_cons]
          refine ⟨by trivial, by omega, by omega⟩

/-- A pass over a file whose stored offset is one byte past its size
detects truncation, deletes the file's cached rows, and re-reads the
whole file from offset zero — and stores size plus one again. -/
theorem syncOneFile_repass (tz : Int → Int) (db : DB) (f : FileOnDisk)
    (hcr : ¬ '\r' ∈ f.content)
    (hne : f.content ≠ [])
    (hlast : ¬ f.content.getLast? = some '\n')
    (hsize : utf8Len f.content ≤ maxLineLen)
    (hoff : storedOffsetOpt db f.path = some ((utf8Len f.content : Int) + 1)) :
    ∃ db2,
      syncOneFile tz db f =
        some (db2, true,
          (parseNewLines tz f.agentName f.path (scanLines f.content) 0).length,
          [0, (utf8Len f.content : Int) + 1])
      ∧ db2.records =
          db.records.filter (fun r => ¬ r.sourceFile = f.path)
            ++ parseNewLines tz f.agentName f.path (scanLines f.content) 0
      ∧ storedOffsetOpt db2 f.path = some ((utf8Len f.content : Int) + 1) := by
  have hpos : 0 < utf8Len f.content := utf8Len_pos f.content hne
  have hscan := scan_whole_sum f.content hcr hlast hne
  have hinv : ∀ q ∈ db.records.filter (fun r => ¬ r.sourceFile = f.path),
      q.sourceFile = f.path → q.sourceOffset < 0 := by
    intro q hq hqf
    have := List.of_mem_filter hq
    exact absurd hqf (by simpa using this)
  have hlen : ∀ l ∈ scanLines f.content, utf8Len l ≤ maxLineLen :=
    fun l hl => le_trans (hscan.2 l hl) hsize
  unfold storedOffsetOpt at hoff
  cases hf : db.states.find? (fun s => s.path = f.path) with
  | none =>
      rw [hf] at hoff
      exact absurd hoff (by simp)
  | some s =>
      rw [hf] at hoff
      simp only [Option.map_some', Option.some.injEq] at hoff
      unfold syncOneFile
      simp only [hf, Option.isSome_some]
      have htr : (utf8Len f.content : Int) < s.lastOffset := by omega
      simp only [htr, true_and, if_true, reduceIte]
      rw [if_neg (by omega)]
      simp only [int_toNat_zero, dropBytes_zero]
      split
      · rename_i hnone
        rw [syncLines_fresh tz f.agentName f.path (scanLines f.content)
          _ 0 0 hinv hlen] at hnone
        exact absurd hnone (by simp)
      · rename_i recs newOffset count hsome
        rw [syncLines_fresh tz f.agentName f.path (scanLines f.content)
          _ 0 0 hinv hlen] at hsome
        simp only [Option.some.injEq, Prod.mk.injEq] at hsome
        obtain ⟨h1, h2, h3⟩ := hsome
        subst h1
        subst h2
        subst h3
        rw [hscan.1]
        simp only [zero_add, List.singleton_append]
        refine ⟨_, rfl, rfl, ?_⟩
        simp only [storedOffsetOpt]
        rw [find?_states_map, find?_states_map, hf]
        simp

/-- C9.  For every synced file whose final line is not terminated by a
newline byte (all-ASCII, CR-free content, lines within the scanner
buffer, a non-negative stored offset), the offset stored in
`file_state` after the pass is the file's size PLUS ONE: the scanner
yields the unterminated final line, but the running offset still adds
one separator byte for it.  Consequently the next pass over the
unchanged file satisfies size < stored offset and takes the truncation
path instead of being skipped: it deletes all the file's cached rows,
resets the offset to zero, and re-reads the whole file — and stores
size plus one again, perpetuating the re-read. -/
theorem c9_unterminated_reread (tz : Int → Int) (db : DB) (f : FileOnDisk)
    (db1 : DB) (n : Nat) (w : List Int)
    (hascii : ∀ c ∈ f.content, c.utf8Size = 1)
    (hcr : ¬ '\r' ∈ f.content)
    (hlast : ¬ f.content.getLast? = some '\n')
    (hsize : utf8Len f.content ≤ maxLineLen)
    (h0 : 0 ≤ storedOffsetD db f.path)
    (hres : syncOneFile tz db f = some (db1, true, n, w)) :
    storedOffsetOpt db1 f.path = some ((utf8Len f.content : Int) + 1)
    ∧ truncationDetected db1 f = true
    ∧ ∃ db2,
        syncOneFile tz db1 f =
          some (db2, true,
            (parseNewLines tz f.agentName f.path (scanLines f.content) 0).length,
            [0, (utf8Len f.content : Int) + 1])
        ∧ db2.records =
            db1.records.filter (fun r => ¬ r.sourceFile = f.path)
              ++ parseNewLines tz f.agentName f.path (scanLines f.content) 0
        ∧ storedOffsetOpt db2 f.path =
            some ((utf8Len f.content : Int) + 1) := by
  have key : storedOffsetOpt db1 f.path = some ((utf8Len f.content : Int) + 1)
      ∧ f.content ≠ [] := by
    unfold syncOneFile at hres
    cases hf : db.states.find? (fun s => s.path = f.path) with
    | none =>
        simp only [hf, Option.isSome_none] at hres
        simp only [Bool.false_eq_true, false_and, if_false, reduceIte] at hres
        split at hres
        · exact absurd hres (by simp)
        · rename_i hgt
          split at hres
          · exact absurd hres (by simp)
          · rename_i recs3 off3 cnt3 hlines
            simp only [int_toNat_zero, dropBytes_zero] at hlines
            have hofX := syncLines_offset_eq tz f.agentName f.path
              _ _ _ _ _ _ _ hlines
            have hne : f.content ≠ [] := by
              intro hx
              apply hgt
              rw [hx]
              simp [utf8Len]
            have hscan := scan_whole_sum f.content hcr hlast hne
            have hoff3 : off3 = (utf8Len f.content : Int) + 1 := by
              rw [hofX, hscan.1]
              omega
            simp only [Option.some.injEq, Prod.mk.injEq] at hres
            obtain ⟨hdb, -, -, -⟩ := hres
            subst hdb
            refine ⟨?_, hne⟩
            simp only [storedOffsetOpt, List.find?_append, hf, Option.none_or]
            rw [List.find?_cons_of_pos _ (by simp)]
            simp [hoff3]
    | some s =>
        have h0' : 0 ≤ s.lastOffset := by
          unfold storedOffsetD storedOffsetOpt at h0
          rw [hf] at h0
          simpa using h0
        simp only [hf, Option.isSome_some] at hres
        by_cases htr : (utf8Len f.content : Int) < s.lastOffset
        · simp only [htr, true_and, if_true, reduceIte] at hres
          split at hres
          · exact absurd hres (by simp)
          · rename_i hgt
            split at hres
            · exact absurd hres (by simp)
            · rename_i recs3 off3 cnt3 hlines
              simp only [int_toNat_zero, dropBytes_zero] at hlines
              have hofX := syncLines_offset_eq tz f.agentName f.path
                _ _ _ _ _ _ _ hlines
              have hne : f.content ≠ [] := by
                intro hx
                apply hgt
                rw [hx]
                simp [utf8Len]
              have hscan := scan_whole_sum f.content hcr hlast hne
              have hoff3 : off3 = (utf8Len f.content : Int) + 1 := by
                rw [hofX, hscan.1]
                omega
              simp only [Option.some.injEq, Prod.mk.injEq] at hres
              obtain ⟨hdb, -, -, -⟩ := hres
              subst hdb
              refine ⟨?_, hne⟩
              simp only [storedOffsetOpt]
              rw [find?_states_map _ f.path off3,
                find?_states_map db.states f.path 0, hf]
              simp [hoff3]
        · simp only [htr, true_and, false_and, and_false,
            if_false, reduceIte] at hres
          split at hres
          · exact absurd hres (by simp)
          · rename_i hgt
            split at hres
            · exact absurd hres (by simp)
            · rename_i recs3 off3 cnt3 hlines
              have hofX := syncLines_offset_eq tz f.agentName f.path
                _ _ _ _ _ _ _ hlines
              have hlt : s.lastOffset < (utf8Len f.content : Int) := by omega
              have hne : f.content ≠ [] := by
                intro hx
                apply hgt
                rw [hx]
                simpa [show utf8Len ([] : List Char) = 0 from rfl] using h0'
              have htail := scan_tail_sum f.content s.lastOffset hascii hcr
                hlast h0' hlt
              have hoff3 : off3 = (utf8Len f.content : Int) + 1 := by
                rw [hofX, htail.1]
                omega
              simp only [Option.some.injEq, Prod.mk.injEq] at hres
              obtain ⟨hdb, -, -, -⟩ := hres
              subst hdb
              refine ⟨?_, hne⟩
              simp only [storedOffsetOpt]
              rw [find?_states_map db.states f.path off3, hf]
              simp [hoff3]
  obtain ⟨k1, hne⟩ := key
  have k2 : truncationDetected db1 f = true := by
    have k1' := k1
    unfold storedOffsetOpt at k1'
    cases hfind1 : db1.states.find? (fun s => s.path = f.path) with
    | none =>
        rw [hfind1] at k1'
        exact absurd k1' (by simp)
    | some row =>
        rw [hfind1] at k1'
        simp only [Option.map_some', Option.some.injEq] at k1'
        simp only [truncationDetected, hfind1, decide_eq_true_eq]
        omega
  exact ⟨k1, k2, syncOneFile_repass tz db1 f hcr hne hlast hsize k1⟩

/-- C9 witness: the off-by-one and the perpetual re-read at a concrete
22-byte single-line file with no terminating newline, synced from the
empty cache. -/
theorem c9_unterminated_reread_witness :
    storedOffsetOpt c9DB1 c9File.path = some ((utf8Len c9File.content : Int) + 1)
    ∧ truncationDetected c9DB1 c9File = true
    ∧ ∃ db2,
        syncOneFile tzUTC c9DB1 c9File =
          some (db2, true,
            (parseNewLines tzUTC c9File.agentName c9File.path
              (scanLines c9File.content) 0).length,
            [0, (utf8Len c9File.content : Int) + 1])
        ∧ db2.records =
            c9DB1.records.filter (fun r => ¬ r.sourceFile = c9File.path)
              ++ parseNewLines tzUTC c9File.agentName c9File.path
                  (scanLines c9File.content) 0
        ∧ storedOffsetOpt db2 c9File.path =
            some ((utf8Len c9File.content : Int) + 1) :=
  c9_unterminated_reread tzUTC emptyDB c9File c9DB1 1 [23]
    (by decide) (by decide) (by decide) (by decide) (by decide) (by decide)

end Claw
